import Mathlib

/-!
Verification of the master-index cloud-sync engine of the toop-journal
application (files cloudsync/master_index.ts, cloudsync/transact.ts,
main/cloudSync.ts).  The TypeScript code is shallowly embedded: JavaScript
objects become association lists, the S3 bucket and the renderer IndexedDB
become fields of an explicit `World` state, every store call threads the
world and may fail (`Except`), and an operation trace records which store
operations were performed.  JSON values are modelled by the inductive
`JVal`; numbers are integers (the code only stores epoch-millisecond
timestamps and booleans in the index).
-/

/-- Record stored in the master index for one entry id:
`{ lastModified: number, deleted: boolean }` (renderer/lib/types). -/
structure IndexRecord where
  lastModified : Int
  deleted : Bool
deriving DecidableEq, Repr

/-- Journal entry payload `{id, date, content, timestamp, lastModified}`.
`lastModified` is optional at runtime (older local rows may predate the
field, cf. the backfill helper in db/idb.ts); the JavaScript falsy test
`!entry.lastModified` treats both an absent value and `0` as unset. -/
structure Entry where
  id : String
  date : String
  content : String
  timestamp : Int
  lastModified : Option Int
deriving DecidableEq, Repr

/-- Parsed JSON values, as produced by `JSON.parse`.  Numbers are modelled
as integers. -/
inductive JVal where
  | null : JVal
  | bool (b : Bool) : JVal
  | num (n : Int) : JVal
  | str (s : String) : JVal
  | arr (xs : List JVal) : JVal
  | obj (fields : List (String × JVal)) : JVal

/-- A master index is a JavaScript object mapping entry id to its record;
modelled as an association list in property-insertion order. -/
abbrev MasterIndex := List (String × IndexRecord)

/-- Store operations performed against the two stores, recorded in an
execution trace.  Entry-content operations address `entries/{id}.json` in
the bucket resp. the id key of the IndexedDB; the index operations address
the `masterIndex.json` object/file. -/
inductive SyncOp where
  | remoteGetEntry (id : String) : SyncOp
  | remotePutEntry (id : String) : SyncOp
  | remoteDeleteEntry (id : String) : SyncOp
  | localGetEntry (id : String) : SyncOp
  | localCreateEntry (id : String) : SyncOp
  | localUpdateEntry (id : String) : SyncOp
  | localDeleteEntry (id : String) : SyncOp
  | remoteGetIndex : SyncOp
  | remotePutIndex : SyncOp
  | localReadIndex : SyncOp
  | localWriteIndex : SyncOp
deriving DecidableEq, Repr

/-- Content transfers in the sense of the specification: remote entry
gets/puts/deletes and local entry creates/updates/deletes (reads of the
index and of local entries are not transfers). -/
def SyncOp.isTransfer : SyncOp → Bool
  | .remoteGetEntry _ => true
  | .remotePutEntry _ => true
  | .remoteDeleteEntry _ => true
  | .localCreateEntry _ => true
  | .localUpdateEntry _ => true
  | .localDeleteEntry _ => true
  | _ => false

/-- Explicit state of the program and its two stores.
`hasClient`/`hasConfig` model the module-level `state.AWSClient` /
`state.AWSConfig` singletons, `hasWindow` whether a renderer window is
available for the IndexedDB round-trips, `localIndexFile` the content of
cloudsync/masterIndex.json (`none` = file absent), `remoteIndex` the
masterIndex.json object in the bucket (`none` = NoSuchKey),
`remoteEntries` the `entries/{id}.json` objects keyed by id,
`localEntries` the IndexedDB rows keyed by id.  `fsWriteFails` injects an
environment fault: when true, `fs.writeFileSync` of the local index file
throws.  `trace` is ghost state listing the store operations performed. -/
structure World where
  hasClient : Bool
  hasConfig : Bool
  hasWindow : Bool
  localIndexFile : Option JVal
  remoteIndex : Option JVal
  remoteEntries : List (String × Entry)
  localEntries : List (String × Entry)
  fsWriteFails : Bool
  trace : List SyncOp

/-- Property read `m[k]` on a JavaScript object modelled as an association
list. -/
def alookup {α : Type} : List (String × α) → String → Option α
  | [], _ => none
  | p :: m, k => if p.1 = k then some p.2 else alookup m k

/-- Property assignment `m[k] = v`: replaces the binding in place if the
key is present, otherwise appends (JavaScript objects keep insertion
order). -/
def aset {α : Type} : List (String × α) → String → α → List (String × α)
  | [], k, v => [(k, v)]
  | p :: m, k, v => if p.1 = k then (k, v) :: m else p :: aset m k v

/-- Key removal (used for S3 `DeleteObject`, which also succeeds when the
key is absent). -/
def adelete {α : Type} : List (String × α) → String → List (String × α)
  | [], _ => []
  | p :: m, k => if p.1 = k then adelete m k else p :: adelete m k

/-- Worker for first-occurrence deduplication: keeps an element when it is
not among the already seen ones. -/
def dedupFirstAux (seen : List String) : List String → List String
  | [] => []
  | x :: xs =>
    if x ∈ seen then dedupFirstAux seen xs
    else x :: dedupFirstAux (x :: seen) xs

/-- First-occurrence deduplication, the order produced by
`new Set([...keys])` in JavaScript. -/
def dedupFirst (xs : List String) : List String := dedupFirstAux [] xs

/-- Set of ids visited by the merge:
`new Set([...Object.keys(local), ...Object.keys(remote)])`. -/
def unionIds (a b : MasterIndex) : List String :=
  dedupFirst (a.map Prod.fst ++ b.map Prod.fst)

-- ## Association-list lemmas

theorem alookup_aset_self {α : Type} (m : List (String × α)) (k : String)
    (v : α) : alookup (aset m k v) k = some v := by
  induction m with
  | nil => simp [aset, alookup]
  | cons p m ih =>
    by_cases hp : p.1 = k
    · simp [aset, alookup, hp]
    · simp [aset, alookup, hp, ih]

theorem alookup_aset_ne {α : Type} (m : List (String × α)) (k k' : String)
    (v : α) (h : k' ≠ k) : alookup (aset m k v) k' = alookup m k' := by
  induction m with
  | nil => simp [aset, alookup, Ne.symm h]
  | cons p m ih =>
    by_cases hp : p.1 = k
    · have h2 : ¬(p.1 = k') := by rw [hp]; exact Ne.symm h
      simp [aset, alookup, hp, Ne.symm h, h2]
    · simp [aset, alookup, hp, ih]

theorem alookup_adelete_self {α : Type} (m : List (String × α))
    (k : String) : alookup (adelete m k) k = none := by
  induction m with
  | nil => simp [adelete, alookup]
  | cons p m ih =>
    by_cases hp : p.1 = k
    · simp [adelete, hp, ih]
    · simp [adelete, alookup, hp, ih]

theorem alookup_adelete_ne {α : Type} (m : List (String × α))
    (k k' : String) (h : k' ≠ k) :
    alookup (adelete m k) k' = alookup m k' := by
  induction m with
  | nil => simp [adelete]
  | cons p m ih =>
    by_cases hp : p.1 = k
    · have h2 : ¬(p.1 = k') := by rw [hp]; exact Ne.symm h
      simp [adelete, alookup, hp, Ne.symm h, h2, ih]
    · simp [adelete, alookup, hp, ih]

theorem alookup_eq_none_of_not_mem {α : Type} (m : List (String × α))
    (k : String) (h : k ∉ m.map Prod.fst) : alookup m k = none := by
  induction m with
  | nil => simp [alookup]
  | cons p m ih =>
    simp only [List.map_cons, List.mem_cons, not_or] at h
    have h1 : ¬(p.1 = k) := fun hh => h.1 hh.symm
    simp [alookup, h1, ih h.2]

theorem alookup_isSome_of_mem {α : Type} (m : List (String × α))
    (k : String) (h : k ∈ m.map Prod.fst) : (alookup m k).isSome := by
  induction m with
  | nil => simp at h
  | cons p m ih =>
    by_cases hp : p.1 = k
    · simp [alookup, hp]
    · simp only [List.map_cons, List.mem_cons] at h
      rcases h with h | h
      · exact absurd h.symm hp
      · simpa [alookup, hp] using ih h

theorem mem_of_alookup_isSome {α : Type} (m : List (String × α))
    (k : String) (h : (alookup m k).isSome) : k ∈ m.map Prod.fst := by
  by_contra hk
  rw [alookup_eq_none_of_not_mem m k hk] at h
  simp at h

/-- Association lists with the same ordered key list, no duplicate keys and
the same lookups are equal. -/
theorem assoc_ext {α : Type} : ∀ (xs ys : List (String × α)),
    xs.map Prod.fst = ys.map Prod.fst → (xs.map Prod.fst).Nodup →
    (∀ k, alookup xs k = alookup ys k) → xs = ys := by
  intro xs
  induction xs with
  | nil =>
    intro ys hkeys _ _
    cases ys with
    | nil => rfl
    | cons q ys => simp at hkeys
  | cons p xs ih =>
    intro ys hkeys hnd hl
    cases ys with
    | nil => simp at hkeys
    | cons q ys =>
      simp only [List.map_cons, List.cons.injEq] at hkeys
      have hv : p.2 = q.2 := by
        have := hl p.1
        simp [alookup, hkeys.1.symm] at this
        exact this
      have hpq : p = q := Prod.ext hkeys.1 hv
      simp only [List.map_cons, List.nodup_cons] at hnd
      refine congrArg₂ List.cons hpq (ih ys hkeys.2 hnd.2 ?_)
      intro k
      by_cases hk : k = p.1
      · subst hk
        rw [alookup_eq_none_of_not_mem xs _ hnd.1,
          alookup_eq_none_of_not_mem ys _ (hkeys.2 ▸ hnd.1)]
      · have := hl k
        have h1 : ¬(p.1 = k) := fun hh => hk hh.symm
        have h2 : ¬(q.1 = k) := by rw [← hkeys.1]; exact h1
        simpa [alookup, h1, h2] using this

-- ## dedupFirst lemmas

theorem mem_dedupFirstAux (a : String) : ∀ (xs seen : List String),
    a ∈ dedupFirstAux seen xs ↔ (a ∈ xs ∧ a ∉ seen) := by
  intro xs
  induction xs with
  | nil => intro seen; simp [dedupFirstAux]
  | cons x xs ih =>
    intro seen
    by_cases hx : x ∈ seen
    · rw [dedupFirstAux, if_pos hx, ih]
      constructor
      · rintro ⟨h₁, h₂⟩
        exact ⟨List.mem_cons_of_mem _ h₁, h₂⟩
      · rintro ⟨h₁, h₂⟩
        rcases List.mem_cons.mp h₁ with rfl | h₁
        · exact absurd hx h₂
        · exact ⟨h₁, h₂⟩
    · rw [dedupFirstAux, if_neg hx]
      constructor
      · intro hmem
        rcases List.mem_cons.mp hmem with rfl | hmem
        · exact ⟨List.mem_cons_self _ _, hx⟩
        · obtain ⟨h₁, h₂⟩ := (ih (x :: seen)).mp hmem
          exact ⟨List.mem_cons_of_mem _ h₁,
            fun hs => h₂ (List.mem_cons_of_mem _ hs)⟩
      · rintro ⟨h₁, h₂⟩
        rcases List.mem_cons.mp h₁ with rfl | h₁
        · exact List.mem_cons_self _ _
        · by_cases hax : a = x
          · exact hax ▸ List.mem_cons_self _ _
          · refine List.mem_cons_of_mem _ ((ih (x :: seen)).mpr ⟨h₁, ?_⟩)
            intro hs
            rcases List.mem_cons.mp hs with h | h
            · exact hax h
            · exact h₂ h

theorem mem_dedupFirst (a : String) (xs : List String) :
    a ∈ dedupFirst xs ↔ a ∈ xs := by
  rw [dedupFirst, mem_dedupFirstAux]
  simp

theorem nodup_dedupFirstAux : ∀ (xs seen : List String),
    (dedupFirstAux seen xs).Nodup := by
  intro xs
  induction xs with
  | nil => intro seen; simp [dedupFirstAux]
  | cons x xs ih =>
    intro seen
    by_cases hx : x ∈ seen
    · rw [dedupFirstAux, if_pos hx]
      exact ih seen
    · rw [dedupFirstAux, if_neg hx]
      refine List.nodup_cons.mpr ⟨fun hmem => ?_, ih (x :: seen)⟩
      exact ((mem_dedupFirstAux x xs (x :: seen)).mp hmem).2
        (List.mem_cons_self _ _)

theorem nodup_dedupFirst (xs : List String) : (dedupFirst xs).Nodup :=
  nodup_dedupFirstAux xs []

theorem dedupFirstAux_eq_self : ∀ (xs seen : List String), xs.Nodup →
    (∀ a ∈ xs, a ∉ seen) → dedupFirstAux seen xs = xs := by
  intro xs
  induction xs with
  | nil => intro seen _ _; rfl
  | cons x xs ih =>
    intro seen hnd hdis
    simp only [List.nodup_cons] at hnd
    rw [dedupFirstAux, if_neg (hdis x (List.mem_cons_self _ _))]
    refine congrArg (List.cons x) (ih (x :: seen) hnd.2 ?_)
    intro a ha hs
    rcases List.mem_cons.mp hs with h | h
    · exact hnd.1 (h ▸ ha)
    · exact hdis a (List.mem_cons_of_mem _ ha) h

theorem dedupFirst_eq_self (xs : List String) (h : xs.Nodup) :
    dedupFirst xs = xs :=
  dedupFirstAux_eq_self xs [] h (by simp)

theorem dedupFirstAux_nil_of_subset : ∀ (ys seen : List String),
    (∀ y ∈ ys, y ∈ seen) → dedupFirstAux seen ys = [] := by
  intro ys
  induction ys with
  | nil => intro seen _; rfl
  | cons y ys ih =>
    intro seen hsub
    rw [dedupFirstAux, if_pos (hsub y (List.mem_cons_self _ _))]
    exact ih seen (fun a ha => hsub a (List.mem_cons_of_mem _ ha))

theorem dedupFirstAux_append_subset : ∀ (xs ys seen : List String),
    (∀ y ∈ ys, y ∈ xs ∨ y ∈ seen) →
    dedupFirstAux seen (xs ++ ys) = dedupFirstAux seen xs := by
  intro xs
  induction xs with
  | nil =>
    intro ys seen hsub
    simp only [List.nil_append, dedupFirstAux]
    exact dedupFirstAux_nil_of_subset ys seen
      (fun y hy => ((hsub y hy).resolve_left (by simp)))
  | cons x xs ih =>
    intro ys seen hsub
    by_cases hx : x ∈ seen
    · rw [List.cons_append, dedupFirstAux, if_pos hx, dedupFirstAux,
        if_pos hx]
      refine ih ys seen (fun y hy => ?_)
      rcases hsub y hy with h | h
      · rcases List.mem_cons.mp h with rfl | h
        · exact .inr hx
        · exact .inl h
      · exact .inr h
    · rw [List.cons_append, dedupFirstAux, if_neg hx, dedupFirstAux,
        if_neg hx]
      refine congrArg (List.cons x) (ih ys (x :: seen) (fun y hy => ?_))
      rcases hsub y hy with h | h
      · rcases List.mem_cons.mp h with rfl | h
        · exact .inr (List.mem_cons_self _ _)
        · exact .inl h
      · exact .inr (List.mem_cons_of_mem _ h)

theorem dedupFirst_append_subset (xs ys : List String)
    (hsub : ∀ y ∈ ys, y ∈ xs) : dedupFirst (xs ++ ys) = dedupFirst xs :=
  dedupFirstAux_append_subset xs ys []
    (fun y hy => .inl (hsub y hy))

theorem mem_unionIds (a b : MasterIndex) (k : String) :
    k ∈ unionIds a b ↔ k ∈ a.map Prod.fst ∨ k ∈ b.map Prod.fst := by
  simp [unionIds, mem_dedupFirst]

-- ## IndexCodec: verifyMasterIndex and serialization (master_index.ts)

/-- Value of the `lastModified` property of a JSON value when it is a
number, mirroring `typeof value.lastModified === 'number'` (property
access on a non-object yields undefined). -/
def recLastModified : JVal → Option Int
  | .obj fields =>
    match alookup fields "lastModified" with
    | some (.num n) => some n
    | _ => none
  | _ => none

/-- Value of the `deleted` property of a JSON value when it is a boolean,
mirroring `typeof value.deleted === 'boolean'`. -/
def recDeleted : JVal → Option Bool
  | .obj fields =>
    match alookup fields "deleted" with
    | some (.bool b) => some b
    | _ => none
  | _ => none

/-- Loop body of `verifyMasterIndex`: walks `Object.entries(parsed)` and
either accepts every record or throws, keeping nothing of an incomplete walk. -/
def validateRecords : List (String × JVal) → MasterIndex →
    Except String MasterIndex
  | [], validated => .ok validated
  | (k, v) :: rest, validated =>
    match recLastModified v, recDeleted v with
    | some n, some b => validateRecords rest (aset validated k ⟨n, b⟩)
    | _, _ => .error "masterIndex is not a valid object"

/-- Keys `"0", "1", ...` that `Object.entries` produces for an array. -/
def enumFields : Nat → List JVal → List (String × JVal)
  | _, [] => []
  | i, v :: vs => (toString i, v) :: enumFields (i + 1) vs

/-- Embeds `verifyMasterIndex` (master_index.ts): a JSON value passes the
`typeof parsed !== 'object' || parsed === null` guard only when it is an
object or an array (JavaScript arrays have typeof object); every entry
must carry a numeric `lastModified` and a boolean `deleted`, otherwise the
whole decode throws. -/
def verifyMasterIndex : JVal → Except String MasterIndex
  | .obj fields => validateRecords fields []
  | .arr xs => validateRecords (enumFields 0 xs) []
  | _ => .error "masterIndex is not a valid object"

/-- JSON form of one index record, as `JSON.stringify` writes it. -/
def encodeRecord (r : IndexRecord) : JVal :=
  .obj [("lastModified", .num r.lastModified), ("deleted", .bool r.deleted)]

/-- JSON form of a master index (`JSON.stringify` of the object, modelled
at the parsed-value level; stringify-then-parse is the identity here). -/
def encodeIndex (m : MasterIndex) : JVal :=
  .obj (m.map (fun p => (p.1, encodeRecord p.2)))

-- ## Store primitives (S3 client and IndexedDB round-trips)

/-- Embeds `GetObjectCommand` on `entries/{id}.json`: a missing object
raises NoSuchKey, which the merge's catch blocks rethrow. -/
def getS3Entry (w : World) (id : String) : Except String Entry × World :=
  let w' := { w with trace := w.trace ++ [SyncOp.remoteGetEntry id] }
  match alookup w.remoteEntries id with
  | some e => (.ok e, w')
  | none => (.error ("NoSuchKey entries/" ++ id ++ ".json"), w')

/-- Embeds `PutObjectCommand` on `entries/{id}.json`. -/
def putS3Entry (w : World) (id : String) (e : Entry) : World :=
  { w with remoteEntries := aset w.remoteEntries id e,
           trace := w.trace ++ [SyncOp.remotePutEntry id] }

/-- Embeds `DeleteObjectCommand` on `entries/{id}.json` (S3 delete also
succeeds when the key does not exist). -/
def deleteS3Entry (w : World) (id : String) : World :=
  { w with remoteEntries := adelete w.remoteEntries id,
           trace := w.trace ++ [SyncOp.remoteDeleteEntry id] }

/-- Embeds `idbGetEntryById` (transact.ts): fails when no renderer window
is available, otherwise returns the IndexedDB row or null. -/
def idbGetEntryById (w : World) (id : String) :
    Except String (Option Entry) × World :=
  if w.hasWindow then
    (.ok (alookup w.localEntries id),
     { w with trace := w.trace ++ [SyncOp.localGetEntry id] })
  else (.error "No renderer window available", w)

/-- Embeds `idbCreateEntry` (transact.ts → renderer `idb.put`): stores the
row under the id key. -/
def idbCreateEntry (w : World) (id : String) (e : Entry) :
    Except String Unit × World :=
  if w.hasWindow then
    (.ok (), { w with localEntries := aset w.localEntries id e,
                      trace := w.trace ++ [SyncOp.localCreateEntry id] })
  else (.error "No renderer window available", w)

/-- Embeds `idbUpdateEntry` (transact.ts → renderer `idbUpdateEntry`,
which throws NOT_FOUND when the row does not exist, then `idb.put`s). -/
def idbUpdateEntry (w : World) (id : String) (e : Entry) :
    Except String Unit × World :=
  if w.hasWindow then
    let w' := { w with trace := w.trace ++ [SyncOp.localUpdateEntry id] }
    match alookup w.localEntries id with
    | none => (.error ("NOT_FOUND: entry with id " ++ id), w')
    | some _ =>
      (.ok (), { w' with localEntries := aset w.localEntries id e })
  else (.error "No renderer window available", w)

/-- Embeds `idbDeleteEntry` (transact.ts → renderer `idb.delete`, which
succeeds also for a missing row). -/
def idbDeleteEntry (w : World) (id : String) : Except String Unit × World :=
  if w.hasWindow then
    (.ok (), { w with localEntries := adelete w.localEntries id,
                      trace := w.trace ++ [SyncOp.localDeleteEntry id] })
  else (.error "No renderer window available", w)

/-- Embeds the `PutObjectCommand` writes of `masterIndex.json` to the
bucket (always succeed in this model). -/
def putS3Index (w : World) (m : MasterIndex) : World :=
  { w with remoteIndex := some (encodeIndex m),
           trace := w.trace ++ [SyncOp.remotePutIndex] }

/-- Embeds `fs.writeFileSync` of cloudsync/masterIndex.json; the
`fsWriteFails` fault makes it throw without changing the file. -/
def writeLocalIndex (w : World) (m : MasterIndex) :
    Except String Unit × World :=
  let w' := { w with trace := w.trace ++ [SyncOp.localWriteIndex] }
  if w.fsWriteFails then (.error "failed to write local master index", w')
  else (.ok (), { w' with localIndexFile := some (encodeIndex m) })

-- ## IndexStoreAdapter: loading the two persisted indexes

/-- Embeds `loadS3MasterIndex` (master_index.ts): reads masterIndex.json
from the bucket; on NoSuchKey it creates an empty index object remotely
and returns the empty index; a validation failure is rethrown. -/
def loadS3MasterIndex (w : World) : Except String MasterIndex × World :=
  if w.hasConfig = false ∨ w.hasClient = false then
    (.error "no s3 client or config found", w)
  else
    let w' := { w with trace := w.trace ++ [SyncOp.remoteGetIndex] }
    match w.remoteIndex with
    | some j =>
      match verifyMasterIndex j with
      | .ok m => (.ok m, w')
      | .error e => (.error e, w')
    | none =>
      (.ok [], { w' with remoteIndex := some (.obj []),
                         trace := w'.trace ++ [SyncOp.remotePutIndex] })

/-- Embeds `loadLocalMasterIndex` (master_index.ts): reads
cloudsync/masterIndex.json — a missing file makes `fs.readFileSync`
throw — then validates it. -/
def loadLocalMasterIndex (w : World) : Except String MasterIndex × World :=
  let w' := { w with trace := w.trace ++ [SyncOp.localReadIndex] }
  match w.localIndexFile with
  | none => (.error "ENOENT: cloudsync/masterIndex.json", w')
  | some j =>
    match verifyMasterIndex j with
    | .ok m => (.ok m, w')
    | .error e => (.error e, w')

-- ## IndexMerger: syncMasterIndex (master_index.ts)

/-- Loop body of `syncMasterIndex` for one id, given the two index records
`localMasterIndex[id]` and `s3MasterIndex[id]`.  Mirrors the source
branches: local record absent → pull remote content and create locally;
remote record absent → read local content and push; local strictly newer →
delete remote object if tombstoned, else push local content; remote
strictly newer → delete local row if tombstoned, else pull remote content;
equal timestamps → keep the initial `localIndex ?? s3Index` assignment
with no transfer.  Ids are drawn from the key union, so both records
cannot be absent; that case is modelled as an error. -/
def syncEntryStep (w : World) (localIdx s3Idx : Option IndexRecord)
    (id : String) : Except String IndexRecord × World :=
  match localIdx with
  | none =>
    match s3Idx with
    | none => (.error ("error creating local entry " ++ id), w)
    | some rr =>
      match getS3Entry w id with
      | (.error e, w₁) => (.error e, w₁)
      | (.ok entry, w₁) =>
        match idbCreateEntry w₁ id entry with
        | (.error e, w₂) => (.error e, w₂)
        | (.ok _, w₂) => (.ok rr, w₂)
  | some l =>
    match s3Idx with
    | none =>
      match idbGetEntryById w id with
      | (.error e, w₁) => (.error e, w₁)
      | (.ok none, w₁) => (.error ("error retrieving local entry " ++ id), w₁)
      | (.ok (some entry), w₁) => (.ok l, putS3Entry w₁ id entry)
    | some rr =>
      if rr.lastModified < l.lastModified then
        if l.deleted then (.ok l, deleteS3Entry w id)
        else
          match idbGetEntryById w id with
          | (.error e, w₁) => (.error e, w₁)
          | (.ok none, w₁) =>
            (.error ("error retrieving local entry " ++ id), w₁)
          | (.ok (some entry), w₁) => (.ok l, putS3Entry w₁ id entry)
      else if l.lastModified < rr.lastModified then
        if rr.deleted then
          match idbDeleteEntry w id with
          | (.error e, w₁) => (.error e, w₁)
          | (.ok _, w₁) => (.ok rr, w₁)
        else
          match getS3Entry w id with
          | (.error e, w₁) => (.error e, w₁)
          | (.ok entry, w₁) =>
            match idbUpdateEntry w₁ id entry with
            | (.error e, w₂) => (.error e, w₂)
            | (.ok _, w₂) => (.ok rr, w₂)
      else (.ok l, w)

/-- The `for (const id of ids)` loop of `syncMasterIndex`, building the
synced index in id order; any thrown error aborts the whole merge. -/
def syncLoop (loc rem : MasterIndex) :
    World → List String → Except String MasterIndex × World
  | w, [] => (.ok [], w)
  | w, id :: ids =>
    match syncEntryStep w (alookup loc id) (alookup rem id) id with
    | (.error e, w₁) => (.error e, w₁)
    | (.ok r, w₁) =>
      match syncLoop loc rem w₁ ids with
      | (.error e, w₂) => (.error e, w₂)
      | (.ok rest, w₂) => (.ok ((id, r) :: rest), w₂)

/-- Embeds `syncMasterIndex` (master_index.ts): requires the client and
config singletons, then reconciles every id in the union of the two key
sets. -/
def syncMasterIndex (w : World) (loc rem : MasterIndex) :
    Except String MasterIndex × World :=
  if w.hasClient = false then (.error "no s3 client found", w)
  else if w.hasConfig = false then (.error "no aws config found", w)
  else syncLoop loc rem w (unionIds loc rem)

-- ## SyncPipeline and EntryTransactor (transact.ts)

/-- Embeds `cloudSyncPipeline` (transact.ts): after checking config and
client it loads the local index, pushes a copy of it to the remote index
key (the pre-merge heartbeat write), loads the remote index back, merges,
then persists the merged index — the source writes the local file and the
remote object twice each (the redundant double-write kept as documented
behavior).  Returns the boolean `true` on success. -/
def cloudSyncPipeline (w : World) : Except String Bool × World :=
  if w.hasConfig = false then (.error "no aws config found", w)
  else if w.hasClient = false then (.error "no s3 client found", w)
  else
    match loadLocalMasterIndex w with
    | (.error e, w₁) => (.error e, w₁)
    | (.ok localIdx, w₁) =>
      let w₂ := putS3Index w₁ localIdx
      match loadS3MasterIndex w₂ with
      | (.error e, w₃) => (.error e, w₃)
      | (.ok s3Idx, w₃) =>
        match syncMasterIndex w₃ localIdx s3Idx with
        | (.error e, w₄) => (.error e, w₄)
        | (.ok merged, w₄) =>
          match writeLocalIndex w₄ merged with
          | (.error e, w₅) => (.error e, w₅)
          | (.ok _, w₅) =>
            let w₆ := putS3Index w₅ merged
            match writeLocalIndex w₆ merged with
            | (.error e, w₇) => (.error e, w₇)
            | (.ok _, w₇) =>
              let w₈ := putS3Index w₇ merged
              (.ok true, w₈)

/-- Truth of the JavaScript test `!entry.lastModified`: an absent value
and the number 0 are both falsy. -/
def lastModifiedFalsy (e : Entry) : Bool :=
  match e.lastModified with
  | none => true
  | some n => n == 0

/-- Embeds `putEntryCloudSync` (transact.ts): validates
`entry.lastModified`, pushes the entry JSON to `entries/{id}.json`,
updates the local index record to `{lastModified, deleted: false}`, merges
against the freshly loaded remote index, then persists the merged index to
the bucket and to the local file (in that order). -/
def putEntryCloudSync (w : World) (entry : Entry) :
    Except String Unit × World :=
  if w.hasClient = false then (.error "no s3 client found", w)
  else if w.hasConfig = false then (.error "no aws config found", w)
  else if lastModifiedFalsy entry then
    (.error "entry lastModified is required", w)
  else
    let w₁ := putS3Entry w entry.id entry
    match loadLocalMasterIndex w₁ with
    | (.error e, w₂) => (.error e, w₂)
    | (.ok localIdx, w₂) =>
      let masterIndex :=
        aset localIdx entry.id ⟨entry.lastModified.getD 0, false⟩
      match loadS3MasterIndex w₂ with
      | (.error e, w₃) => (.error e, w₃)
      | (.ok s3Idx, w₃) =>
        match syncMasterIndex w₃ masterIndex s3Idx with
        | (.error e, w₄) => (.error e, w₄)
        | (.ok merged, w₄) =>
          let w₅ := putS3Index w₄ merged
          match writeLocalIndex w₅ merged with
          | (.error e, w₆) => (.error e, w₆)
          | (.ok _, w₆) => (.ok (), w₆)

-- ## Frame lemmas: one merge step only touches its own id

/-- Relation between the worlds before and after processing one id: entry
stores are unchanged at every other key, the configuration booleans and
the two persisted indexes are untouched, and the trace only grows. -/
def StepFrame (w w' : World) (id : String) : Prop :=
  (∀ k, k ≠ id → alookup w'.localEntries k = alookup w.localEntries k) ∧
  (∀ k, k ≠ id → alookup w'.remoteEntries k = alookup w.remoteEntries k) ∧
  w'.hasClient = w.hasClient ∧ w'.hasConfig = w.hasConfig ∧
  w'.hasWindow = w.hasWindow ∧ w'.localIndexFile = w.localIndexFile ∧
  w'.remoteIndex = w.remoteIndex ∧ w'.fsWriteFails = w.fsWriteFails ∧
  ∃ t, w'.trace = w.trace ++ t

theorem stepFrame_refl (w : World) (id : String) : StepFrame w w id := by
  refine ⟨fun _ _ => rfl, fun _ _ => rfl, rfl, rfl, rfl, rfl, rfl, rfl,
    [], by simp⟩

theorem stepFrame_trans {w w₁ w₂ : World} {id : String}
    (h₁ : StepFrame w w₁ id) (h₂ : StepFrame w₁ w₂ id) :
    StepFrame w w₂ id := by
  obtain ⟨a₁, b₁, c₁, d₁, e₁, f₁, g₁, i₁, t₁, ht₁⟩ := h₁
  obtain ⟨a₂, b₂, c₂, d₂, e₂, f₂, g₂, i₂, t₂, ht₂⟩ := h₂
  refine ⟨fun k hk => (a₂ k hk).trans (a₁ k hk),
    fun k hk => (b₂ k hk).trans (b₁ k hk),
    c₂.trans c₁, d₂.trans d₁, e₂.trans e₁, f₂.trans f₁, g₂.trans g₁,
    i₂.trans i₁, t₁ ++ t₂, by rw [ht₂, ht₁, List.append_assoc]⟩

theorem stepFrame_getS3Entry {w w' : World} {id : String}
    {res : Except String Entry} (h : getS3Entry w id = (res, w')) :
    StepFrame w w' id := by
  unfold getS3Entry at h
  rcases hl : alookup w.remoteEntries id with _ | e <;> rw [hl] at h <;>
    cases h <;>
    exact ⟨fun _ _ => rfl, fun _ _ => rfl, rfl, rfl, rfl, rfl, rfl, rfl,
      _, rfl⟩

theorem stepFrame_putS3Entry (w : World) (id : String) (e : Entry) :
    StepFrame w (putS3Entry w id e) id := by
  refine ⟨fun _ _ => rfl, fun k hk => alookup_aset_ne _ _ _ _ hk,
    rfl, rfl, rfl, rfl, rfl, rfl, _, rfl⟩

theorem stepFrame_deleteS3Entry (w : World) (id : String) :
    StepFrame w (deleteS3Entry w id) id := by
  refine ⟨fun _ _ => rfl, fun k hk => alookup_adelete_ne _ _ _ hk,
    rfl, rfl, rfl, rfl, rfl, rfl, _, rfl⟩

theorem stepFrame_idbGetEntryById {w w' : World} {id : String}
    {res : Except String (Option Entry)}
    (h : idbGetEntryById w id = (res, w')) : StepFrame w w' id := by
  unfold idbGetEntryById at h
  by_cases hw : w.hasWindow = true
  · rw [if_pos hw] at h
    cases h
    exact ⟨fun _ _ => rfl, fun _ _ => rfl, rfl, rfl, rfl, rfl, rfl, rfl,
      _, rfl⟩
  · rw [if_neg hw] at h
    cases h
    exact stepFrame_refl _ _

theorem stepFrame_idbCreateEntry {w w' : World} {id : String} {e : Entry}
    {res : Except String Unit} (h : idbCreateEntry w id e = (res, w')) :
    StepFrame w w' id := by
  unfold idbCreateEntry at h
  by_cases hw : w.hasWindow = true
  · rw [if_pos hw] at h
    cases h
    exact ⟨fun k hk => alookup_aset_ne _ _ _ _ hk, fun _ _ => rfl,
      rfl, rfl, rfl, rfl, rfl, rfl, _, rfl⟩
  · rw [if_neg hw] at h
    cases h
    exact stepFrame_refl _ _

theorem stepFrame_idbUpdateEntry {w w' : World} {id : String} {e : Entry}
    {res : Except String Unit} (h : idbUpdateEntry w id e = (res, w')) :
    StepFrame w w' id := by
  unfold idbUpdateEntry at h
  by_cases hw : w.hasWindow = true
  · rw [if_pos hw] at h
    rcases hl : alookup w.localEntries id with _ | e₀ <;> rw [hl] at h <;>
      cases h
    · exact ⟨fun _ _ => rfl, fun _ _ => rfl, rfl, rfl, rfl, rfl, rfl, rfl,
        _, rfl⟩
    · exact ⟨fun k hk => alookup_aset_ne _ _ _ _ hk, fun _ _ => rfl,
        rfl, rfl, rfl, rfl, rfl, rfl, _, rfl⟩
  · rw [if_neg hw] at h
    cases h
    exact stepFrame_refl _ _

theorem stepFrame_idbDeleteEntry {w w' : World} {id : String}
    {res : Except String Unit} (h : idbDeleteEntry w id = (res, w')) :
    StepFrame w w' id := by
  unfold idbDeleteEntry at h
  by_cases hw : w.hasWindow = true
  · rw [if_pos hw] at h
    cases h
    exact ⟨fun k hk => alookup_adelete_ne _ _ _ hk, fun _ _ => rfl,
      rfl, rfl, rfl, rfl, rfl, rfl, _, rfl⟩
  · rw [if_neg hw] at h
    cases h
    exact stepFrame_refl _ _

theorem syncEntryStep_frame {w w' : World} {lv rv : Option IndexRecord}
    {id : String} {res : Except String IndexRecord}
    (h : syncEntryStep w lv rv id = (res, w')) : StepFrame w w' id := by
  unfold syncEntryStep at h
  rcases lv with _ | l
  · rcases rv with _ | rr
    · cases h; exact stepFrame_refl _ _
    · dsimp only at h
      rcases hg : getS3Entry w id with ⟨gres, w₁⟩
      rw [hg] at h
      have f₁ := stepFrame_getS3Entry hg
      rcases gres with e | entry
      · cases h; exact f₁
      · dsimp only at h
        rcases hc : idbCreateEntry w₁ id entry with ⟨cres, w₂⟩
        rw [hc] at h
        have f₂ := stepFrame_idbCreateEntry hc
        rcases cres with e | u <;> cases h <;> exact stepFrame_trans f₁ f₂
  · rcases rv with _ | rr
    · dsimp only at h
      rcases hg : idbGetEntryById w id with ⟨gres, w₁⟩
      rw [hg] at h
      have f₁ := stepFrame_idbGetEntryById hg
      rcases gres with e | oe
      · cases h; exact f₁
      · rcases oe with _ | entry
        · cases h; exact f₁
        · cases h
          exact stepFrame_trans f₁ (stepFrame_putS3Entry _ _ _)
    · dsimp only at h
      by_cases h₁ : rr.lastModified < l.lastModified
      · rw [if_pos h₁] at h
        by_cases h₂ : l.deleted = true
        · rw [if_pos h₂] at h
          cases h
          exact stepFrame_deleteS3Entry _ _
        · rw [if_neg h₂] at h
          rcases hg : idbGetEntryById w id with ⟨gres, w₁⟩
          rw [hg] at h
          have f₁ := stepFrame_idbGetEntryById hg
          rcases gres with e | oe
          · cases h; exact f₁
          · rcases oe with _ | entry
            · cases h; exact f₁
            · cases h
              exact stepFrame_trans f₁ (stepFrame_putS3Entry _ _ _)
      · rw [if_neg h₁] at h
        by_cases h₂ : l.lastModified < rr.lastModified
        · rw [if_pos h₂] at h
          by_cases h₃ : rr.deleted = true
          · rw [if_pos h₃] at h
            rcases hd : idbDeleteEntry w id with ⟨dres, w₁⟩
            rw [hd] at h
            have f₁ := stepFrame_idbDeleteEntry hd
            rcases dres with e | u <;> cases h <;> exact f₁
          · rw [if_neg h₃] at h
            rcases hg : getS3Entry w id with ⟨gres, w₁⟩
            rw [hg] at h
            have f₁ := stepFrame_getS3Entry hg
            rcases gres with e | entry
            · cases h; exact f₁
            · dsimp only at h
              rcases hu : idbUpdateEntry w₁ id entry with ⟨ures, w₂⟩
              rw [hu] at h
              have f₂ := stepFrame_idbUpdateEntry hu
              rcases ures with e | u <;> cases h <;>
                exact stepFrame_trans f₁ f₂
        · rw [if_neg h₂] at h
          cases h
          exact stepFrame_refl _ _

-- ## Loop-level lemmas

/-- Frame for a whole merge run over an id list: keys outside the list are
untouched, global fields are preserved, the trace grows. -/
def LoopFrame (w w' : World) (ids : List String) : Prop :=
  (∀ k, k ∉ ids → alookup w'.localEntries k = alookup w.localEntries k) ∧
  (∀ k, k ∉ ids → alookup w'.remoteEntries k = alookup w.remoteEntries k) ∧
  w'.hasClient = w.hasClient ∧ w'.hasConfig = w.hasConfig ∧
  w'.hasWindow = w.hasWindow ∧ w'.localIndexFile = w.localIndexFile ∧
  w'.remoteIndex = w.remoteIndex ∧ w'.fsWriteFails = w.fsWriteFails ∧
  ∃ t, w'.trace = w.trace ++ t

theorem loopFrame_refl (w : World) (ids : List String) :
    LoopFrame w w ids := by
  refine ⟨fun _ _ => rfl, fun _ _ => rfl, rfl, rfl, rfl, rfl, rfl, rfl,
    [], by simp⟩

theorem loopFrame_trans {w w₁ w₂ : World} {ids : List String}
    (h₁ : LoopFrame w w₁ ids) (h₂ : LoopFrame w₁ w₂ ids) :
    LoopFrame w w₂ ids := by
  obtain ⟨a₁, b₁, c₁, d₁, e₁, f₁, g₁, i₁, t₁, ht₁⟩ := h₁
  obtain ⟨a₂, b₂, c₂, d₂, e₂, f₂, g₂, i₂, t₂, ht₂⟩ := h₂
  refine ⟨fun k hk => (a₂ k hk).trans (a₁ k hk),
    fun k hk => (b₂ k hk).trans (b₁ k hk),
    c₂.trans c₁, d₂.trans d₁, e₂.trans e₁, f₂.trans f₁, g₂.trans g₁,
    i₂.trans i₁, t₁ ++ t₂, by rw [ht₂, ht₁, List.append_assoc]⟩

theorem stepFrame_loopFrame {w w' : World} {id : String}
    {ids : List String} (hm : id ∈ ids) (h : StepFrame w w' id) :
    LoopFrame w w' ids := by
  obtain ⟨a, b, c, d, e, f, g, i, t, ht⟩ := h
  exact ⟨fun k hk => a k (fun hkk => hk (hkk ▸ hm)),
    fun k hk => b k (fun hkk => hk (hkk ▸ hm)), c, d, e, f, g, i, t, ht⟩

theorem loopFrame_cons {w w' : World} {id : String} {ids : List String}
    (h : LoopFrame w w' ids) : LoopFrame w w' (id :: ids) := by
  obtain ⟨a, b, c, d, e, f, g, i, t, ht⟩ := h
  exact ⟨fun k hk => a k (fun hkk => hk (List.mem_cons_of_mem _ hkk)),
    fun k hk => b k (fun hkk => hk (List.mem_cons_of_mem _ hkk)),
    c, d, e, f, g, i, t, ht⟩

theorem syncLoop_frame {loc rem : MasterIndex} :
    ∀ (ids : List String) (w w' : World) (res : Except String MasterIndex),
    syncLoop loc rem w ids = (res, w') → LoopFrame w w' ids := by
  intro ids
  induction ids with
  | nil =>
    intro w w' res h
    unfold syncLoop at h
    cases h
    exact loopFrame_refl _ _
  | cons id ids ih =>
    intro w w' res h
    unfold syncLoop at h
    rcases hs : syncEntryStep w (alookup loc id) (alookup rem id) id
      with ⟨sres, w₁⟩
    rw [hs] at h
    have f₁ : LoopFrame w w₁ (id :: ids) :=
      stepFrame_loopFrame (List.mem_cons_self _ _) (syncEntryStep_frame hs)
    rcases sres with e | r
    · cases h
      exact f₁
    · dsimp only at h
      rcases hl : syncLoop loc rem w₁ ids with ⟨lres, w₂⟩
      rw [hl] at h
      have f₂ : LoopFrame w₁ w₂ (id :: ids) := loopFrame_cons (ih _ _ _ hl)
      rcases lres with e | rest <;> cases h <;> exact loopFrame_trans f₁ f₂

theorem syncLoop_keys {loc rem : MasterIndex} :
    ∀ (ids : List String) (w w' : World) (out : MasterIndex),
    syncLoop loc rem w ids = (.ok out, w') →
    out.map Prod.fst = ids := by
  intro ids
  induction ids with
  | nil =>
    intro w w' out h
    unfold syncLoop at h
    cases h
    rfl
  | cons id ids ih =>
    intro w w' out h
    unfold syncLoop at h
    rcases hs : syncEntryStep w (alookup loc id) (alookup rem id) id
      with ⟨sres, w₁⟩
    rw [hs] at h
    rcases sres with e | r
    · cases h
    · dsimp only at h
      rcases hl : syncLoop loc rem w₁ ids with ⟨lres, w₂⟩
      rw [hl] at h
      rcases lres with e | rest
      · cases h
      · cases h
        simp [ih _ _ _ hl]

/-- Extraction lemma: a successful merge run over a duplicate-free id list
processed every id with `syncEntryStep`, starting from a world that agrees
with the initial world at that id and ending in a world that agrees with
the final world at that id; the merged index maps the id to the record the
step returned, and every operation the step performed is in the final
trace. -/
theorem syncLoop_extract {loc rem : MasterIndex} :
    ∀ (ids : List String) (w w' : World) (out : MasterIndex),
    ids.Nodup → syncLoop loc rem w ids = (.ok out, w') →
    ∀ k ∈ ids,
    ∃ w₁ r w₂,
      syncEntryStep w₁ (alookup loc k) (alookup rem k) k = (.ok r, w₂) ∧
      alookup w₁.localEntries k = alookup w.localEntries k ∧
      alookup w₁.remoteEntries k = alookup w.remoteEntries k ∧
      w₁.hasWindow = w.hasWindow ∧
      alookup w'.localEntries k = alookup w₂.localEntries k ∧
      alookup w'.remoteEntries k = alookup w₂.remoteEntries k ∧
      alookup out k = some r ∧
      (∀ op ∈ w₂.trace, op ∈ w'.trace) := by
  intro ids
  induction ids with
  | nil =>
    intro w w' out _ _ k hk
    simp at hk
  | cons id ids ih =>
    intro w w' out hnd h k hk
    simp only [List.nodup_cons] at hnd
    unfold syncLoop at h
    rcases hs : syncEntryStep w (alookup loc id) (alookup rem id) id
      with ⟨sres, w₁⟩
    rw [hs] at h
    rcases sres with e | r
    · cases h
    · dsimp only at h
      rcases hl : syncLoop loc rem w₁ ids with ⟨lres, w₂⟩
      rw [hl] at h
      rcases lres with e | rest
      · cases h
      · cases h
        have hlf : LoopFrame w₁ w' ids := syncLoop_frame ids w₁ w' _ hl
        rcases List.mem_cons.mp hk with rfl | hkm
        · refine ⟨w, r, w₁, hs, rfl, rfl, rfl, ?_, ?_, ?_, ?_⟩
          · exact hlf.1 k hnd.1
          · exact hlf.2.1 k hnd.1
          · simp [alookup]
          · intro op hop
            obtain ⟨t, ht⟩ := hlf.2.2.2.2.2.2.2.2
            rw [ht]
            exact List.mem_append_left _ hop
        · have hkid : k ≠ id := fun hkk => hnd.1 (hkk ▸ hkm)
          obtain ⟨w₁', r', w₂', hstep, hla, hra, hwin, hlb, hrb, hout,
            htr⟩ := ih w₁ w' rest hnd.2 hl k hkm
          have hsf : StepFrame w w₁ id := syncEntryStep_frame hs
          refine ⟨w₁', r', w₂', hstep, ?_, ?_, ?_, hlb, hrb, ?_, htr⟩
          · exact hla.trans (hsf.1 k hkid)
          · exact hra.trans (hsf.2.1 k hkid)
          · exact hwin.trans hsf.2.2.2.2.1
          · simp [alookup, hkid.symm, hout]

-- ## Step inversion and evaluation lemmas for the individual branches

theorem step_eval_equal {w : World} {l rr : IndexRecord} {id : String}
    (h₁ : ¬rr.lastModified < l.lastModified)
    (h₂ : ¬l.lastModified < rr.lastModified) :
    syncEntryStep w (some l) (some rr) id = (.ok l, w) := by
  simp [syncEntryStep, h₁, h₂]

theorem step_eval_tombstone_push {w : World} {l rr : IndexRecord}
    {id : String} (h₁ : rr.lastModified < l.lastModified)
    (h₂ : l.deleted = true) :
    syncEntryStep w (some l) (some rr) id = (.ok l, deleteS3Entry w id) := by
  simp [syncEntryStep, h₁, h₂]

theorem step_eval_push {w : World} {l rr : IndexRecord} {e : Entry}
    {id : String} (h₁ : rr.lastModified < l.lastModified)
    (h₂ : l.deleted = false) (hw : w.hasWindow = true)
    (he : alookup w.localEntries id = some e) :
    syncEntryStep w (some l) (some rr) id =
      (.ok l, putS3Entry
        { w with trace := w.trace ++ [SyncOp.localGetEntry id] } id e) := by
  simp [syncEntryStep, h₁, h₂, idbGetEntryById, hw, he]

theorem step_eval_local_only {w : World} {l : IndexRecord} {e : Entry}
    {id : String} (hw : w.hasWindow = true)
    (he : alookup w.localEntries id = some e) :
    syncEntryStep w (some l) none id =
      (.ok l, putS3Entry
        { w with trace := w.trace ++ [SyncOp.localGetEntry id] } id e) := by
  simp [syncEntryStep, idbGetEntryById, hw, he]

theorem step_inv_local_only {w w₂ : World} {l r : IndexRecord}
    {id : String} (h : syncEntryStep w (some l) none id = (.ok r, w₂)) :
    r = l ∧ w.hasWindow = true ∧ ∃ e,
      alookup w.localEntries id = some e ∧
      alookup w₂.remoteEntries id = some e ∧
      alookup w₂.localEntries id = alookup w.localEntries id ∧
      SyncOp.localGetEntry id ∈ w₂.trace ∧
      SyncOp.remotePutEntry id ∈ w₂.trace := by
  by_cases hw : w.hasWindow = true
  · rcases he : alookup w.localEntries id with _ | e
    · simp [syncEntryStep, idbGetEntryById, hw, he] at h
    · rw [step_eval_local_only hw he] at h
      obtain ⟨hr, hw₂⟩ := Prod.mk.injEq .. ▸ h
      cases hr
      refine ⟨rfl, hw, e, rfl, ?_, ?_, ?_, ?_⟩ <;> rw [← hw₂]
      · exact alookup_aset_self _ _ _
      · exact he
      · simp [putS3Entry]
      · simp [putS3Entry]
  · simp [syncEntryStep, idbGetEntryById, hw] at h

theorem step_inv_remote_only {w w₂ : World} {rr r : IndexRecord}
    {id : String} (h : syncEntryStep w none (some rr) id = (.ok r, w₂)) :
    r = rr ∧ w.hasWindow = true ∧ ∃ e,
      alookup w.remoteEntries id = some e ∧
      alookup w₂.localEntries id = some e ∧
      alookup w₂.remoteEntries id = alookup w.remoteEntries id ∧
      SyncOp.remoteGetEntry id ∈ w₂.trace ∧
      SyncOp.localCreateEntry id ∈ w₂.trace := by
  rcases he : alookup w.remoteEntries id with _ | e
  · simp [syncEntryStep, getS3Entry, he] at h
  · by_cases hw : w.hasWindow = true
    · simp only [syncEntryStep, getS3Entry, he, idbCreateEntry, hw,
        if_true] at h
      obtain ⟨hr, hw₂⟩ := Prod.mk.injEq .. ▸ h
      cases hr
      refine ⟨rfl, hw, e, rfl, ?_, ?_, ?_, ?_⟩ <;> rw [← hw₂]
      · exact alookup_aset_self _ _ _
      · exact he.symm ▸ rfl
      · simp
      · simp
    · simp [syncEntryStep, getS3Entry, he, idbCreateEntry, hw] at h

theorem step_inv_push {w w₂ : World} {l rr r : IndexRecord} {id : String}
    (h₁ : rr.lastModified < l.lastModified) (h₂ : l.deleted = false)
    (h : syncEntryStep w (some l) (some rr) id = (.ok r, w₂)) :
    r = l ∧ w.hasWindow = true ∧ ∃ e,
      alookup w.localEntries id = some e ∧
      alookup w₂.remoteEntries id = some e ∧
      alookup w₂.localEntries id = alookup w.localEntries id ∧
      SyncOp.localGetEntry id ∈ w₂.trace ∧
      SyncOp.remotePutEntry id ∈ w₂.trace := by
  by_cases hw : w.hasWindow = true
  · rcases he : alookup w.localEntries id with _ | e
    · simp [syncEntryStep, h₁, h₂, idbGetEntryById, hw, he] at h
    · rw [step_eval_push h₁ h₂ hw he] at h
      obtain ⟨hr, hw₂⟩ := Prod.mk.injEq .. ▸ h
      cases hr
      refine ⟨rfl, hw, e, rfl, ?_, ?_, ?_, ?_⟩ <;> rw [← hw₂]
      · exact alookup_aset_self _ _ _
      · exact he
      · simp [putS3Entry]
      · simp [putS3Entry]
  · simp [syncEntryStep, h₁, h₂, idbGetEntryById, hw] at h

theorem step_inv_tombstone_push {w w₂ : World} {l rr r : IndexRecord}
    {id : String} (h₁ : rr.lastModified < l.lastModified)
    (h₂ : l.deleted = true)
    (h : syncEntryStep w (some l) (some rr) id = (.ok r, w₂)) :
    r = l ∧ alookup w₂.remoteEntries id = none ∧
      alookup w₂.localEntries id = alookup w.localEntries id ∧
      SyncOp.remoteDeleteEntry id ∈ w₂.trace := by
  rw [step_eval_tombstone_push h₁ h₂] at h
  obtain ⟨hr, hw₂⟩ := Prod.mk.injEq .. ▸ h
  cases hr
  refine ⟨rfl, ?_, ?_, ?_⟩ <;> rw [← hw₂]
  · exact alookup_adelete_self _ _
  · simp [deleteS3Entry]
  · simp [deleteS3Entry]

theorem step_inv_pull {w w₂ : World} {l rr r : IndexRecord} {id : String}
    (h₁ : l.lastModified < rr.lastModified) (h₂ : rr.deleted = false)
    (h : syncEntryStep w (some l) (some rr) id = (.ok r, w₂)) :
    r = rr ∧ w.hasWindow = true ∧ ∃ e,
      alookup w.remoteEntries id = some e ∧
      alookup w₂.localEntries id = some e ∧
      alookup w₂.remoteEntries id = alookup w.remoteEntries id ∧
      SyncOp.remoteGetEntry id ∈ w₂.trace ∧
      SyncOp.localUpdateEntry id ∈ w₂.trace := by
  have h₀ : ¬rr.lastModified < l.lastModified := by omega
  rcases he : alookup w.remoteEntries id with _ | e
  · simp [syncEntryStep, h₀, h₁, h₂, getS3Entry, he] at h
  · by_cases hw : w.hasWindow = true
    · rcases he₀ : alookup w.localEntries id with _ | e₀
      · simp [syncEntryStep, h₀, h₁, h₂, getS3Entry, he,
          idbUpdateEntry, hw, he₀] at h
      · simp only [syncEntryStep, h₀, h₁, h₂, getS3Entry, he,
          idbUpdateEntry, hw, he₀, if_true, if_false, if_neg, if_pos] at h
        obtain ⟨hr, hw₂⟩ := Prod.mk.injEq .. ▸ h
        cases hr
        refine ⟨rfl, hw, e, rfl, ?_, ?_, ?_, ?_⟩ <;> rw [← hw₂]
        · exact alookup_aset_self _ _ _
        · exact he.symm ▸ rfl
        · simp
        · simp
    · simp [syncEntryStep, h₀, h₁, h₂, getS3Entry, he,
        idbUpdateEntry, hw] at h

theorem step_inv_tombstone_pull {w w₂ : World} {l rr r : IndexRecord}
    {id : String} (h₁ : l.lastModified < rr.lastModified)
    (h₂ : rr.deleted = true)
    (h : syncEntryStep w (some l) (some rr) id = (.ok r, w₂)) :
    r = rr ∧ w.hasWindow = true ∧
      alookup w₂.localEntries id = none ∧
      alookup w₂.remoteEntries id = alookup w.remoteEntries id ∧
      SyncOp.localDeleteEntry id ∈ w₂.trace := by
  have h₀ : ¬rr.lastModified < l.lastModified := by omega
  by_cases hw : w.hasWindow = true
  · simp only [syncEntryStep, h₀, h₁, h₂, idbDeleteEntry, hw, if_true,
      if_false, if_neg, if_pos] at h
    obtain ⟨hr, hw₂⟩ := Prod.mk.injEq .. ▸ h
    cases hr
    refine ⟨rfl, hw, ?_, ?_, ?_⟩ <;> rw [← hw₂]
    · exact alookup_adelete_self _ _
    · simp
  · simp [syncEntryStep, h₀, h₁, h₂, idbDeleteEntry, hw] at h

-- ## Merge-level lemmas

theorem nodup_unionIds (a b : MasterIndex) : (unionIds a b).Nodup :=
  nodup_dedupFirst _

theorem syncMasterIndex_ok {w w' : World} {loc rem out : MasterIndex}
    (h : syncMasterIndex w loc rem = (.ok out, w')) :
    w.hasClient = true ∧ w.hasConfig = true ∧
    syncLoop loc rem w (unionIds loc rem) = (.ok out, w') := by
  unfold syncMasterIndex at h
  by_cases h₁ : w.hasClient = false
  · rw [if_pos h₁] at h
    simp [Prod.ext_iff] at h
  · rw [if_neg h₁] at h
    by_cases h₂ : w.hasConfig = false
    · rw [if_pos h₂] at h
      simp [Prod.ext_iff] at h
    · rw [if_neg h₂] at h
      exact ⟨by simpa using h₁, by simpa using h₂, h⟩

theorem mem_unionIds_left {loc rem : MasterIndex} {k : String}
    {l : IndexRecord} (h : alookup loc k = some l) : k ∈ unionIds loc rem :=
  (mem_unionIds loc rem k).mpr
    (.inl (mem_of_alookup_isSome _ _ (by simp [h])))

theorem mem_unionIds_right {loc rem : MasterIndex} {k : String}
    {r : IndexRecord} (h : alookup rem k = some r) : k ∈ unionIds loc rem :=
  (mem_unionIds loc rem k).mpr
    (.inr (mem_of_alookup_isSome _ _ (by simp [h])))

/-- Claim C1: Both sides know the id, the local record is strictly newer and
not a tombstone: the merge reads the local entry content, pushes it to the
remote object store at the id key (so the stale remote content is
overwritten with the local content), and the merged index keeps the local
record. -/
theorem lww_local_newer_pushes {w w' : World} {loc rem out : MasterIndex}
    {k : String} {l r : IndexRecord}
    (hl : alookup loc k = some l) (hr : alookup rem k = some r)
    (hlt : r.lastModified < l.lastModified) (hdel : l.deleted = false)
    (hrun : syncMasterIndex w loc rem = (.ok out, w')) :
    alookup out k = some l ∧ ∃ e,
      alookup w.localEntries k = some e ∧
      alookup w'.remoteEntries k = some e ∧
      SyncOp.localGetEntry k ∈ w'.trace ∧
      SyncOp.remotePutEntry k ∈ w'.trace := by
  obtain ⟨-, -, hloop⟩ := syncMasterIndex_ok hrun
  obtain ⟨w₁, rstep, w₂, hstep, hla, hra, hwin, hlb, hrb, hout, htr⟩ :=
    syncLoop_extract _ _ _ _ (nodup_unionIds loc rem) hloop k
      (mem_unionIds_left hl)
  rw [hl, hr] at hstep
  obtain ⟨hrl, -, e, he₁, he₂, -, ht₁, ht₂⟩ := step_inv_push hlt hdel hstep
  subst hrl
  exact ⟨hout, e, hla ▸ he₁, hrb ▸ he₂, htr _ ht₁, htr _ ht₂⟩

/-- Claim C2: The merged index returned by a successful merge has exactly the
keys of the union of the two input key sets (in first-occurrence order of
the JavaScript id set). -/
theorem merge_keys_union {w w' : World} {loc rem out : MasterIndex}
    (h : syncMasterIndex w loc rem = (.ok out, w')) :
    out.map Prod.fst = unionIds loc rem ∧
    ∀ k, (k ∈ out.map Prod.fst ↔
      k ∈ loc.map Prod.fst ∨ k ∈ rem.map Prod.fst) := by
  obtain ⟨-, -, hloop⟩ := syncMasterIndex_ok h
  have hkeys := syncLoop_keys _ _ _ _ hloop
  exact ⟨hkeys, fun k => hkeys ▸ mem_unionIds loc rem k⟩

/-- Claim C4: Both sides know the id, the local record is strictly newer and is
a tombstone: the merge deletes the remote entry object and the merged
index keeps the local tombstone record. -/
theorem lww_tombstone_deletes_remote {w w' : World}
    {loc rem out : MasterIndex} {k : String} {l r : IndexRecord}
    (hl : alookup loc k = some l) (hr : alookup rem k = some r)
    (hlt : r.lastModified < l.lastModified) (hdel : l.deleted = true)
    (hrun : syncMasterIndex w loc rem = (.ok out, w')) :
    alookup out k = some l ∧ alookup w'.remoteEntries k = none ∧
      SyncOp.remoteDeleteEntry k ∈ w'.trace := by
  obtain ⟨-, -, hloop⟩ := syncMasterIndex_ok hrun
  obtain ⟨w₁, rstep, w₂, hstep, hla, hra, hwin, hlb, hrb, hout, htr⟩ :=
    syncLoop_extract _ _ _ _ (nodup_unionIds loc rem) hloop k
      (mem_unionIds_left hl)
  rw [hl, hr] at hstep
  obtain ⟨hrl, hnone, -, ht⟩ := step_inv_tombstone_push hlt hdel hstep
  subst hrl
  exact ⟨hout, hrb ▸ hnone, htr _ ht⟩

/-- Claim C10: A one-sided tombstone is not propagated as metadata only.
If an id exists only in the local index as a tombstone, the merge still
tries to read the local entry — absent for a tombstone — so the whole
merge aborts with an error.  If an id exists only in the remote index with
`deleted = true`, the merge still fetches the remote entry object and
creates a local entry from it. -/
theorem one_sided_tombstone_transfers :
    (∀ (w w' : World) (loc rem : MasterIndex) (k : String)
       (l : IndexRecord) (res : Except String MasterIndex),
       alookup loc k = some l → l.deleted = true → alookup rem k = none →
       alookup w.localEntries k = none →
       syncMasterIndex w loc rem = (res, w') →
       ∃ msg, res = .error msg) ∧
    (∀ (w w' : World) (loc rem out : MasterIndex) (k : String)
       (r : IndexRecord),
       alookup loc k = none → alookup rem k = some r → r.deleted = true →
       syncMasterIndex w loc rem = (.ok out, w') →
       alookup out k = some r ∧ ∃ e,
         alookup w.remoteEntries k = some e ∧
         alookup w'.localEntries k = some e ∧
         SyncOp.remoteGetEntry k ∈ w'.trace ∧
         SyncOp.localCreateEntry k ∈ w'.trace) := by
  constructor
  · intro w w' loc rem k l res hl hdel hrem hnone hrun
    rcases res with msg | out
    · exact ⟨msg, rfl⟩
    · exfalso
      obtain ⟨-, -, hloop⟩ := syncMasterIndex_ok hrun
      obtain ⟨w₁, rstep, w₂, hstep, hla, hra, hwin, hlb, hrb, hout, htr⟩ :=
        syncLoop_extract _ _ _ _ (nodup_unionIds loc rem) hloop k
          (mem_unionIds_left hl)
      rw [hl, hrem] at hstep
      obtain ⟨-, -, e, he₁, -⟩ := step_inv_local_only hstep
      rw [hla, hnone] at he₁
      cases he₁
  · intro w w' loc rem out k r hl hr hdel hrun
    obtain ⟨-, -, hloop⟩ := syncMasterIndex_ok hrun
    obtain ⟨w₁, rstep, w₂, hstep, hla, hra, hwin, hlb, hrb, hout, htr⟩ :=
      syncLoop_extract _ _ _ _ (nodup_unionIds loc rem) hloop k
        (mem_unionIds_right hr)
    rw [hl, hr] at hstep
    obtain ⟨hrl, -, e, he₁, he₂, -, ht₁, ht₂⟩ :=
      step_inv_remote_only hstep
    subst hrl
    exact ⟨hout, e, hra ▸ he₁, hlb ▸ he₂, htr _ ht₁, htr _ ht₂⟩

-- ## Concrete instances for the merge theorems

def entryC1new : Entry := ⟨"a", "jan.01.2026", "fresh local content", 1, some 200⟩

def entryC1stale : Entry := ⟨"a", "jan.01.2026", "stale remote content", 1, some 100⟩

def worldC1 : World :=
  ⟨true, true, true, none, none, [("a", entryC1stale)], [("a", entryC1new)],
    false, []⟩

theorem lww_local_newer_pushes_witness :
    ∃ out w' e,
      syncMasterIndex worldC1 [("a", ⟨200, false⟩)] [("a", ⟨100, false⟩)] =
        (.ok out, w') ∧
      alookup out "a" = some ⟨200, false⟩ ∧
      alookup worldC1.localEntries "a" = some e ∧
      alookup w'.remoteEntries "a" = some e ∧
      SyncOp.remotePutEntry "a" ∈ w'.trace := by
  obtain ⟨out, w', hrun⟩ : ∃ out w',
      syncMasterIndex worldC1 [("a", ⟨200, false⟩)] [("a", ⟨100, false⟩)] =
        (.ok out, w') := ⟨_, _, rfl⟩
  obtain ⟨hout, e, he₁, he₂, ht₁, ht₂⟩ :=
    @lww_local_newer_pushes worldC1 w' [("a", ⟨200, false⟩)]
      [("a", ⟨100, false⟩)] out "a" ⟨200, false⟩ ⟨100, false⟩
      (by rfl) (by rfl) (by decide) (by rfl) hrun
  exact ⟨out, w', e, hrun, hout, he₁, he₂, ht₂⟩

def entryC2a : Entry := ⟨"a", "feb.01.2026", "local only", 2, some 5⟩

def entryC2b : Entry := ⟨"b", "feb.02.2026", "remote only", 3, some 7⟩

def worldC2 : World :=
  ⟨true, true, true, none, none, [("b", entryC2b)], [("a", entryC2a)],
    false, []⟩

theorem merge_keys_union_witness :
    ∃ out w',
      syncMasterIndex worldC2 [("a", ⟨5, false⟩)] [("b", ⟨7, false⟩)] =
        (.ok out, w') ∧
      out.map Prod.fst = ["a", "b"] := by
  obtain ⟨out, w', hrun⟩ : ∃ out w',
      syncMasterIndex worldC2 [("a", ⟨5, false⟩)] [("b", ⟨7, false⟩)] =
        (.ok out, w') := ⟨_, _, rfl⟩
  obtain ⟨hkeys, -⟩ := merge_keys_union hrun
  exact ⟨out, w', hrun, hkeys.trans (by rfl)⟩

def entryC4 : Entry := ⟨"b", "mar.01.2026", "to be deleted", 4, some 150⟩

def worldC4 : World :=
  ⟨true, true, true, none, none, [("b", entryC4)], [], false, []⟩

theorem lww_tombstone_deletes_remote_witness :
    ∃ out w',
      syncMasterIndex worldC4 [("b", ⟨300, true⟩)] [("b", ⟨150, false⟩)] =
        (.ok out, w') ∧
      alookup out "b" = some ⟨300, true⟩ ∧
      alookup w'.remoteEntries "b" = none ∧
      SyncOp.remoteDeleteEntry "b" ∈ w'.trace := by
  obtain ⟨out, w', hrun⟩ : ∃ out w',
      syncMasterIndex worldC4 [("b", ⟨300, true⟩)] [("b", ⟨150, false⟩)] =
        (.ok out, w') := ⟨_, _, rfl⟩
  obtain ⟨hout, hnone, ht⟩ :=
    @lww_tombstone_deletes_remote worldC4 w' [("b", ⟨300, true⟩)]
      [("b", ⟨150, false⟩)] out "b" ⟨300, true⟩ ⟨150, false⟩
      (by rfl) (by rfl) (by decide) (by rfl) hrun
  exact ⟨out, w', hrun, hout, hnone, ht⟩

def worldC10a : World := ⟨true, true, true, none, none, [], [], false, []⟩

def entryC10 : Entry := ⟨"d", "apr.01.2026", "tombstoned content", 5, some 10⟩

def worldC10b : World :=
  ⟨true, true, true, none, none, [("d", entryC10)], [], false, []⟩

theorem one_sided_tombstone_transfers_witness :
    (∃ msg w',
      syncMasterIndex worldC10a [("c", ⟨10, true⟩)] [] =
        (.error msg, w')) ∧
    (∃ out w' e,
      syncMasterIndex worldC10b [] [("d", ⟨10, true⟩)] = (.ok out, w') ∧
      alookup out "d" = some ⟨10, true⟩ ∧
      alookup w'.localEntries "d" = some e ∧
      SyncOp.localCreateEntry "d" ∈ w'.trace) := by
  constructor
  · obtain ⟨res, w', hrun⟩ : ∃ res w',
        syncMasterIndex worldC10a [("c", ⟨10, true⟩)] [] = (res, w') :=
      ⟨_, _, rfl⟩
    obtain ⟨msg, hres⟩ := one_sided_tombstone_transfers.1 worldC10a w'
      [("c", ⟨10, true⟩)] [] "c" ⟨10, true⟩ res
      (by rfl) (by rfl) (by rfl) (by rfl) hrun
    exact ⟨msg, w', hres ▸ hrun⟩
  · obtain ⟨out, w', hrun⟩ : ∃ out w',
        syncMasterIndex worldC10b [] [("d", ⟨10, true⟩)] = (.ok out, w') :=
      ⟨_, _, rfl⟩
    obtain ⟨hout, e, he₁, he₂, ht₁, ht₂⟩ :=
      one_sided_tombstone_transfers.2 worldC10b w' [] [("d", ⟨10, true⟩)]
        out "d" ⟨10, true⟩ (by rfl) (by rfl) (by rfl) hrun
    exact ⟨out, w', e, hrun, hout, he₂, ht₂⟩

-- ## Second-run analysis for the idempotence property

/-- Conditions under which the merge step for one id succeeds when the
first run's merged index `m` is fed back as the local side: the id is in
`m`, the remote record is never strictly newer than the merged one, and
whenever the merged record must be pushed again (remote record absent, or
merged strictly newer and live) the local entry is available. -/
def SecondOK (w : World) (m rem : MasterIndex) (id : String) : Prop :=
  ∃ r, alookup m id = some r ∧
    ((alookup rem id = none ∧ w.hasWindow = true ∧
        ∃ e, alookup w.localEntries id = some e) ∨
     (∃ rr, alookup rem id = some rr ∧
        ¬(r.lastModified < rr.lastModified) ∧
        (rr.lastModified < r.lastModified → r.deleted = false →
          w.hasWindow = true ∧ ∃ e, alookup w.localEntries id = some e)))

/-- After a successful first merge run, every processed id satisfies the
second-run conditions in the final world. -/
theorem firstRun_secondOK {w w' : World} {loc rem out : MasterIndex}
    (hrun : syncMasterIndex w loc rem = (.ok out, w')) :
    ∀ id ∈ unionIds loc rem, SecondOK w' out rem id := by
  intro id hid
  obtain ⟨-, -, hloop⟩ := syncMasterIndex_ok hrun
  have hLF := syncLoop_frame _ _ _ _ hloop
  have hwin' : w'.hasWindow = w.hasWindow := hLF.2.2.2.2.1
  obtain ⟨w₁, r, w₂, hstep, hla, hra, hwin, hlb, hrb, hout, htr⟩ :=
    syncLoop_extract _ _ _ _ (nodup_unionIds loc rem) hloop id hid
  rcases hl : alookup loc id with _ | l
  · rcases hr : alookup rem id with _ | rr
    · exfalso
      rcases (mem_unionIds loc rem id).mp hid with h | h
      · have := alookup_isSome_of_mem loc id h
        rw [hl] at this
        simp at this
      · have := alookup_isSome_of_mem rem id h
        rw [hr] at this
        simp at this
    · rw [hl, hr] at hstep
      obtain ⟨hrl, -, -⟩ := step_inv_remote_only hstep
      subst hrl
      exact ⟨r, hout, .inr ⟨r, hr, lt_irrefl _,
        fun hlt _ => absurd hlt (lt_irrefl _)⟩⟩
  · rcases hr : alookup rem id with _ | rr
    · rw [hl, hr] at hstep
      obtain ⟨hrl, hw₁, e, he₁, -, heq, -, -⟩ := step_inv_local_only hstep
      subst hrl
      refine ⟨r, hout, .inl ⟨hr, ?_, e, ?_⟩⟩
      · rw [hwin', ← hwin, hw₁]
      · rw [hlb, heq, hla, ← hla, he₁]
    · rw [hl, hr] at hstep
      by_cases h₁ : rr.lastModified < l.lastModified
      · by_cases h₂ : l.deleted = true
        · obtain ⟨hrl, -, -, -⟩ := step_inv_tombstone_push h₁ h₂ hstep
          subst hrl
          refine ⟨r, hout, .inr ⟨rr, hr, by omega, fun _ hdf => ?_⟩⟩
          rw [h₂] at hdf
          cases hdf
        · have h₂f : l.deleted = false := by simpa using h₂
          obtain ⟨hrl, hw₁, e, he₁, -, heq, -, -⟩ :=
            step_inv_push h₁ h₂f hstep
          subst hrl
          refine ⟨r, hout, .inr ⟨rr, hr, by omega, fun _ _ => ⟨?_, e, ?_⟩⟩⟩
          · rw [hwin', ← hwin, hw₁]
          · rw [hlb, heq, he₁]
      · by_cases h₂ : l.lastModified < rr.lastModified
        · by_cases h₃ : rr.deleted = true
          · obtain ⟨hrl, -, -, -, -⟩ := step_inv_tombstone_pull h₂ h₃ hstep
            subst hrl
            exact ⟨r, hout, .inr ⟨r, hr, lt_irrefl _,
              fun hlt _ => absurd hlt (lt_irrefl _)⟩⟩
          · have h₃f : rr.deleted = false := by simpa using h₃
            obtain ⟨hrl, -, -⟩ := step_inv_pull h₂ h₃f hstep
            subst hrl
            exact ⟨r, hout, .inr ⟨r, hr, lt_irrefl _,
              fun hlt _ => absurd hlt (lt_irrefl _)⟩⟩
        · rw [step_eval_equal h₁ h₂] at hstep
          obtain ⟨hrl, -⟩ := Prod.mk.injEq .. ▸ hstep
          cases hrl
          exact ⟨r, hout, .inr ⟨rr, hr, h₂, fun hlt => absurd hlt h₁⟩⟩

/-- One id of the second run: under `SecondOK` the merge step succeeds and
returns exactly the merged record. -/
theorem step_second {w : World} {m rem : MasterIndex} {id : String}
    (h : SecondOK w m rem id) :
    ∃ r w₂, alookup m id = some r ∧
      syncEntryStep w (alookup m id) (alookup rem id) id = (.ok r, w₂) := by
  obtain ⟨r, hm, hcase⟩ := h
  rw [hm]
  rcases hcase with ⟨hrn, hw, e, he⟩ | ⟨rr, hrr, hnlt, hcond⟩
  · rw [hrn]
    exact ⟨r, _, rfl, step_eval_local_only hw he⟩
  · rw [hrr]
    by_cases hgt : rr.lastModified < r.lastModified
    · by_cases hdel : r.deleted = true
      · exact ⟨r, _, rfl, step_eval_tombstone_push hgt hdel⟩
      · have hdf : r.deleted = false := by simpa using hdel
        obtain ⟨hw, e, he⟩ := hcond hgt hdf
        exact ⟨r, _, rfl, step_eval_push hgt hdf hw he⟩
    · exact ⟨r, _, rfl, step_eval_equal hgt hnlt⟩

/-- A step at a different id preserves the second-run conditions. -/
theorem secondOK_preserved {w w₂ : World} {m rem : MasterIndex}
    {id id' : String} (hf : StepFrame w w₂ id) (hne : id' ≠ id)
    (h : SecondOK w m rem id') : SecondOK w₂ m rem id' := by
  obtain ⟨r, hm, hcase⟩ := h
  refine ⟨r, hm, ?_⟩
  rcases hcase with ⟨hrn, hw, e, he⟩ | ⟨rr, hrr, hnlt, hcond⟩
  · exact .inl ⟨hrn, (hf.2.2.2.2.1).trans hw, e, (hf.1 id' hne).trans he⟩
  · refine .inr ⟨rr, hrr, hnlt, fun h₁ h₂ => ?_⟩
    obtain ⟨hw, e, he⟩ := hcond h₁ h₂
    exact ⟨(hf.2.2.2.2.1).trans hw, e, (hf.1 id' hne).trans he⟩

/-- Second-run loop: when every id satisfies its conditions the loop
succeeds and reproduces the merged record of every processed id. -/
theorem syncLoop_second {m rem : MasterIndex} :
    ∀ (ids : List String) (w : World), ids.Nodup →
    (∀ id ∈ ids, SecondOK w m rem id) →
    ∃ out w', syncLoop m rem w ids = (.ok out, w') ∧
      ∀ k ∈ ids, alookup out k = alookup m k := by
  intro ids
  induction ids with
  | nil =>
    intro w _ _
    exact ⟨[], w, rfl, by simp⟩
  | cons id ids ih =>
    intro w hnd hok
    simp only [List.nodup_cons] at hnd
    obtain ⟨r, w₂, hm, hstep⟩ := step_second (hok id (List.mem_cons_self _ _))
    have hf : StepFrame w w₂ id := syncEntryStep_frame hstep
    have hok₂ : ∀ id' ∈ ids, SecondOK w₂ m rem id' := by
      intro id' hid'
      exact secondOK_preserved hf (fun hh => hnd.1 (hh ▸ hid'))
        (hok id' (List.mem_cons_of_mem _ hid'))
    obtain ⟨out, w', hloop, hvals⟩ := ih w₂ hnd.2 hok₂
    refine ⟨(id, r) :: out, w', ?_, ?_⟩
    · unfold syncLoop
      rw [hstep]
      dsimp only
      rw [hloop]
    · intro k hk
      rcases List.mem_cons.mp hk with rfl | hk
      · rw [hm]
        simp [alookup]
      · have hkid : ¬(id = k) := fun hh => hnd.1 (hh ▸ hk)
        rw [alookup, if_neg hkid]
        exact hvals k hk

/-- Claim C3, amended: Feeding the merged index of a successful run back as
the local input, with the remote index unchanged and starting from the
final world of the first run, the merge succeeds again and produces the
same merged index.  (The second run is not transfer-free; see the
counterexample.) -/
theorem merge_second_run_same_index {w w' : World}
    {loc rem m : MasterIndex}
    (hrun : syncMasterIndex w loc rem = (.ok m, w')) :
    ∃ w'', syncMasterIndex w' m rem = (.ok m, w'') := by
  obtain ⟨hcl, hcf, hloop⟩ := syncMasterIndex_ok hrun
  have hkeys : m.map Prod.fst = unionIds loc rem :=
    syncLoop_keys _ _ _ _ hloop
  have hnd : (m.map Prod.fst).Nodup := hkeys ▸ nodup_unionIds loc rem
  have hsub : ∀ y ∈ rem.map Prod.fst, y ∈ m.map Prod.fst := by
    intro y hy
    rw [hkeys]
    exact (mem_unionIds loc rem y).mpr (.inr hy)
  have hids : unionIds m rem = m.map Prod.fst := by
    rw [unionIds, dedupFirst_append_subset _ _ hsub,
      dedupFirst_eq_self _ hnd]
  have hok : ∀ id ∈ unionIds m rem, SecondOK w' m rem id := by
    rw [hids, hkeys]
    exact firstRun_secondOK hrun
  obtain ⟨out, w'', hloop₂, hvals⟩ :=
    syncLoop_second (unionIds m rem) w' (nodup_unionIds m rem) hok
  have hkeys₂ : out.map Prod.fst = unionIds m rem :=
    syncLoop_keys _ _ _ _ hloop₂
  have hout : out = m := by
    refine assoc_ext out m (by rw [hkeys₂, hids]) ?_ ?_
    · rw [hkeys₂, hids]
      exact hnd
    · intro k
      by_cases hk : k ∈ unionIds m rem
      · exact hvals k hk
      · rw [alookup_eq_none_of_not_mem out k (by rw [hkeys₂]; exact hk),
          alookup_eq_none_of_not_mem m k (by rw [← hids]; exact hk)]
  subst hout
  have hLF := syncLoop_frame _ _ _ _ hloop
  refine ⟨w'', ?_⟩
  unfold syncMasterIndex
  rw [if_neg (by rw [hLF.2.2.1, hcl]; simp),
    if_neg (by rw [hLF.2.2.2.1, hcf]; simp)]
  exact hloop₂

def entryC3 : Entry := ⟨"a", "may.01.2026", "only local", 6, some 200⟩

def worldC3 : World :=
  ⟨true, true, true, none, none, [], [("a", entryC3)], false, []⟩

/-- Claim C3 counterexample: Feeding the first merged index back as the local
input with the same remote input does reproduce the merged index, but the
second run is not transfer-free: for an id the remote index still lacks,
the entry content is read and pushed to the remote store again (a remote
put is a content transfer). -/
theorem merge_second_run_transfers_counterexample :
    ∃ m₁ w₁ m₂ w₂,
      syncMasterIndex worldC3 [("a", ⟨200, false⟩)] [] = (.ok m₁, w₁) ∧
      syncMasterIndex { w₁ with trace := [] } m₁ [] = (.ok m₂, w₂) ∧
      m₂ = m₁ ∧
      SyncOp.remotePutEntry "a" ∈ w₂.trace ∧
      w₂.trace.filter (fun op => op.isTransfer) ≠ [] := by
  refine ⟨_, _, _, _, rfl, rfl, rfl, ?_, ?_⟩ <;> decide

theorem merge_second_run_same_index_witness :
    ∃ m₁ w₁ w₂,
      syncMasterIndex worldC3 [("a", ⟨200, false⟩)] [] = (.ok m₁, w₁) ∧
      syncMasterIndex w₁ m₁ [] = (.ok m₁, w₂) := by
  obtain ⟨m₁, w₁, hrun⟩ : ∃ m₁ w₁,
      syncMasterIndex worldC3 [("a", ⟨200, false⟩)] [] = (.ok m₁, w₁) :=
    ⟨_, _, rfl⟩
  obtain ⟨w₂, h₂⟩ := merge_second_run_same_index hrun
  exact ⟨m₁, w₁, w₂, hrun, h₂⟩

-- ## IndexCodec lemmas (C8)

theorem aset_append_of_not_mem {α : Type} :
    ∀ (m : List (String × α)) (k : String) (v : α),
    k ∉ m.map Prod.fst → aset m k v = m ++ [(k, v)] := by
  intro m
  induction m with
  | nil => intro k v _; rfl
  | cons p m ih =>
    intro k v h
    simp only [List.map_cons, List.mem_cons, not_or] at h
    rw [aset, if_neg (fun hh => h.1 hh.symm), ih k v h.2]
    rfl

theorem validateRecords_error :
    ∀ (fields : List (String × JVal)) (acc : MasterIndex),
    (∃ kv ∈ fields,
      ¬((recLastModified kv.2).isSome ∧ (recDeleted kv.2).isSome)) →
    validateRecords fields acc =
      .error "masterIndex is not a valid object" := by
  intro fields
  induction fields with
  | nil =>
    rintro acc ⟨kv, h, -⟩
    simp at h
  | cons p rest ih =>
    rcases p with ⟨k, v⟩
    rintro acc ⟨kv, hkv, hbad⟩
    rcases hn : recLastModified v with _ | n
    · simp [validateRecords, hn]
    · rcases hb : recDeleted v with _ | b
      · simp [validateRecords, hn, hb]
      · simp only [validateRecords, hn, hb]
        refine ih _ ⟨kv, ?_, hbad⟩
        rcases List.mem_cons.mp hkv with rfl | h
        · exact absurd ⟨by simp [hn], by simp [hb]⟩ hbad
        · exact h

theorem validateRecords_ok :
    ∀ (fields : List (String × JVal)) (acc : MasterIndex),
    (∀ kv ∈ fields,
      (recLastModified kv.2).isSome ∧ (recDeleted kv.2).isSome) →
    (fields.map Prod.fst).Nodup →
    (∀ k ∈ fields.map Prod.fst, k ∉ acc.map Prod.fst) →
    validateRecords fields acc = .ok (acc ++ fields.map (fun kv =>
      (kv.1, ⟨(recLastModified kv.2).getD 0,
              (recDeleted kv.2).getD false⟩))) := by
  intro fields
  induction fields with
  | nil =>
    intro acc _ _ _
    simp [validateRecords]
  | cons p rest ih =>
    rcases p with ⟨k, v⟩
    intro acc hwf hnd hdis
    obtain ⟨hn, hb⟩ := hwf (k, v) (List.mem_cons_self _ _)
    rcases hn' : recLastModified v with _ | n
    · rw [hn'] at hn
      simp at hn
    · rcases hb' : recDeleted v with _ | b
      · rw [hb'] at hb
        simp at hb
      · simp only [validateRecords, hn', hb']
        have hkacc : k ∉ acc.map Prod.fst := hdis k (by simp)
        rw [aset_append_of_not_mem acc k ⟨n, b⟩ hkacc]
        simp only [List.map_cons, List.nodup_cons] at hnd
        have hdis2 : ∀ k' ∈ rest.map Prod.fst,
            k' ∉ (acc ++ [(k, (⟨n, b⟩ : IndexRecord))]).map Prod.fst := by
          intro k' h1 h2
          simp only [List.map_append, List.mem_append, List.map_cons,
            List.map_nil, List.mem_singleton] at h2
          rcases h2 with h2 | h2
          · exact hdis k' (by simp [h1]) h2
          · exact hnd.1 (h2 ▸ h1)
        rw [ih (acc ++ [(k, (⟨n, b⟩ : IndexRecord))])
          (fun kv hkv => hwf kv (List.mem_cons_of_mem _ hkv)) hnd.2 hdis2]
        simp [List.append_assoc, hn', hb']

/-- Claim C8: Index decoding is all-or-nothing.  The specification's example
`{"x": {"lastModified": "not-a-number", "deleted": false}}` fails; in
general any entry whose value lacks a numeric `lastModified` or a boolean
`deleted` fails the whole decode with the validation error and no incomplete
map, while an input whose every value is well-formed decodes to the full
map. -/
theorem decode_all_or_nothing :
    (verifyMasterIndex (.obj [("x", .obj
        [("lastModified", .str "not-a-number"),
         ("deleted", .bool false)])]) =
      .error "masterIndex is not a valid object") ∧
    (∀ fields : List (String × JVal),
      (∃ kv ∈ fields,
        ¬((recLastModified kv.2).isSome ∧ (recDeleted kv.2).isSome)) →
      verifyMasterIndex (.obj fields) =
        .error "masterIndex is not a valid object") ∧
    (∀ fields : List (String × JVal),
      (∀ kv ∈ fields,
        (recLastModified kv.2).isSome ∧ (recDeleted kv.2).isSome) →
      (fields.map Prod.fst).Nodup →
      verifyMasterIndex (.obj fields) = .ok (fields.map (fun kv =>
        (kv.1, ⟨(recLastModified kv.2).getD 0,
                (recDeleted kv.2).getD false⟩)))) := by
  refine ⟨by rfl, ?_, ?_⟩
  · intro fields h
    exact validateRecords_error fields [] h
  · intro fields hwf hnd
    have h := validateRecords_ok fields [] hwf hnd (by simp)
    simpa using h

theorem decode_all_or_nothing_witness :
    verifyMasterIndex (.obj [("good", .obj
        [("lastModified", .num 42), ("deleted", .bool false)])]) =
      .ok [("good", ⟨42, false⟩)] ∧
    verifyMasterIndex (.obj [("y", .num 3)]) =
      .error "masterIndex is not a valid object" := by
  constructor
  · have h := decode_all_or_nothing.2.2
      [("good", JVal.obj [("lastModified", .num 42),
                          ("deleted", .bool false)])]
      (by decide) (by decide)
    simpa [recLastModified, recDeleted, alookup] using h
  · exact decode_all_or_nothing.2.1 [("y", JVal.num 3)]
      ⟨("y", JVal.num 3), List.mem_cons_self _ _, by decide⟩

/-- Claim C9: Loading the remote index bootstraps on absence: when the remote
index object does not exist, an empty index object is created at the
remote index key and the empty index is returned; when the object exists
but fails validation, the load fails with that error and the remote index
object is left unchanged. -/
theorem loadRemote_bootstrap_or_propagate :
    (∀ w : World, w.hasClient = true → w.hasConfig = true →
      w.remoteIndex = none →
      ∃ w', loadS3MasterIndex w = (.ok [], w') ∧
        w'.remoteIndex = some (.obj []) ∧
        SyncOp.remotePutIndex ∈ w'.trace) ∧
    (∀ (w : World) (j : JVal) (e : String), w.hasClient = true →
      w.hasConfig = true → w.remoteIndex = some j →
      verifyMasterIndex j = .error e →
      (loadS3MasterIndex w).1 = .error e ∧
      (loadS3MasterIndex w).2.remoteIndex = w.remoteIndex) := by
  constructor
  · intro w hc hf hn
    unfold loadS3MasterIndex
    rw [if_neg (by simp [hc, hf]), hn]
    exact ⟨_, rfl, rfl, by simp⟩
  · intro w j e hc hf hj hv
    unfold loadS3MasterIndex
    rw [if_neg (by simp [hc, hf]), hj]
    dsimp only
    rw [hv]
    exact ⟨rfl, rfl⟩

def worldC9a : World := ⟨true, true, true, none, none, [], [], false, []⟩

def worldC9b : World :=
  ⟨true, true, true, none, some (.num 3), [], [], false, []⟩

theorem loadRemote_bootstrap_or_propagate_witness :
    (∃ w', loadS3MasterIndex worldC9a = (.ok [], w') ∧
      w'.remoteIndex = some (.obj [])) ∧
    (loadS3MasterIndex worldC9b).1 =
      .error "masterIndex is not a valid object" := by
  constructor
  · obtain ⟨w', h₁, h₂, h₃⟩ :=
      loadRemote_bootstrap_or_propagate.1 worldC9a rfl rfl rfl
    exact ⟨w', h₁, h₂⟩
  · exact (loadRemote_bootstrap_or_propagate.2 worldC9b (.num 3)
      "masterIndex is not a valid object" rfl rfl rfl (by rfl)).1

-- ## Stage inversion lemmas for the pipeline and putEntry

theorem loadLocal_inv {w w₁ : World} {res : Except String MasterIndex}
    (h : loadLocalMasterIndex w = (res, w₁)) :
    w₁ = { w with trace := w.trace ++ [SyncOp.localReadIndex] } := by
  unfold loadLocalMasterIndex at h
  rcases hf : w.localIndexFile with _ | j <;> rw [hf] at h
  · cases h
    rfl
  · dsimp only at h
    rcases hv : verifyMasterIndex j with e | m <;> rw [hv] at h <;>
      cases h <;> rfl

theorem loadS3_inv {w w₁ : World} {res : Except String MasterIndex}
    (h : loadS3MasterIndex w = (res, w₁)) :
    w₁.localIndexFile = w.localIndexFile ∧
    w₁.localEntries = w.localEntries ∧
    w₁.remoteEntries = w.remoteEntries ∧
    w₁.hasClient = w.hasClient ∧ w₁.hasConfig = w.hasConfig ∧
    w₁.hasWindow = w.hasWindow ∧ w₁.fsWriteFails = w.fsWriteFails ∧
    (∃ t, w₁.trace = w.trace ++ t) ∧
    (w₁.remoteIndex = w.remoteIndex ∨
      (w.remoteIndex = none ∧ w₁.remoteIndex = some (.obj []))) := by
  unfold loadS3MasterIndex at h
  by_cases hg : w.hasConfig = false ∨ w.hasClient = false
  · rw [if_pos hg] at h
    cases h
    exact ⟨rfl, rfl, rfl, rfl, rfl, rfl, rfl, ⟨[], by simp⟩, .inl rfl⟩
  · rw [if_neg hg] at h
    rcases hf : w.remoteIndex with _ | j <;> rw [hf] at h
    · cases h
      exact ⟨rfl, rfl, rfl, rfl, rfl, rfl, rfl,
        ⟨[SyncOp.remoteGetIndex, SyncOp.remotePutIndex], by simp⟩,
        .inr ⟨rfl, rfl⟩⟩
    · dsimp only at h
      rcases hv : verifyMasterIndex j with e | m <;> rw [hv] at h <;>
        cases h <;>
        exact ⟨rfl, rfl, rfl, rfl, rfl, rfl, rfl, ⟨_, rfl⟩, .inl rfl⟩

theorem syncMasterIndex_inv {w w₁ : World} {loc rem : MasterIndex}
    {res : Except String MasterIndex}
    (h : syncMasterIndex w loc rem = (res, w₁)) :
    w₁.localIndexFile = w.localIndexFile ∧
    w₁.remoteIndex = w.remoteIndex ∧
    w₁.fsWriteFails = w.fsWriteFails ∧
    w₁.hasClient = w.hasClient ∧ w₁.hasConfig = w.hasConfig ∧
    (∃ t, w₁.trace = w.trace ++ t) := by
  unfold syncMasterIndex at h
  by_cases h₁ : w.hasClient = false
  · rw [if_pos h₁] at h
    cases h
    exact ⟨rfl, rfl, rfl, rfl, rfl, [], by simp⟩
  · rw [if_neg h₁] at h
    by_cases h₂ : w.hasConfig = false
    · rw [if_pos h₂] at h
      cases h
      exact ⟨rfl, rfl, rfl, rfl, rfl, [], by simp⟩
    · rw [if_neg h₂] at h
      have hLF := syncLoop_frame _ _ _ _ h
      exact ⟨hLF.2.2.2.2.2.1, hLF.2.2.2.2.2.2.1, hLF.2.2.2.2.2.2.2.1,
        hLF.2.2.1, hLF.2.2.2.1, hLF.2.2.2.2.2.2.2.2⟩

theorem writeLocal_inv {w w₁ : World} {m : MasterIndex}
    {res : Except String Unit} (h : writeLocalIndex w m = (res, w₁)) :
    w₁.remoteIndex = w.remoteIndex ∧
    w₁.remoteEntries = w.remoteEntries ∧
    w₁.localEntries = w.localEntries ∧
    w₁.fsWriteFails = w.fsWriteFails ∧
    w₁.hasClient = w.hasClient ∧ w₁.hasConfig = w.hasConfig ∧
    w₁.hasWindow = w.hasWindow ∧
    (∃ t, w₁.trace = w.trace ++ t) ∧
    ((res = .error "failed to write local master index" ∧
       w.fsWriteFails = true ∧ w₁.localIndexFile = w.localIndexFile) ∨
     (res = .ok () ∧ w.fsWriteFails = false ∧
       w₁.localIndexFile = some (encodeIndex m))) := by
  unfold writeLocalIndex at h
  by_cases hf : w.fsWriteFails = true
  · rw [if_pos hf] at h
    cases h
    exact ⟨rfl, rfl, rfl, rfl, rfl, rfl, rfl, ⟨_, rfl⟩, .inl ⟨rfl, hf, rfl⟩⟩
  · rw [if_neg hf] at h
    cases h
    exact ⟨rfl, rfl, rfl, rfl, rfl, rfl, rfl, ⟨_, rfl⟩,
      .inr ⟨rfl, by simpa using hf, rfl⟩⟩

/-- Claim C5, amended: On a successful run the pipeline returns the boolean
`true` — a success flag, not the merged index; the merged index produced
by the merge step is persisted to the local index file and to the remote
index object. -/
theorem pipeline_success {w w' : World} {b : Bool}
    (h : cloudSyncPipeline w = (.ok b, w')) :
    b = true ∧ ∃ li wA s3 wB merged wC,
      loadLocalMasterIndex w = (.ok li, wA) ∧
      loadS3MasterIndex (putS3Index wA li) = (.ok s3, wB) ∧
      syncMasterIndex wB li s3 = (.ok merged, wC) ∧
      w'.localIndexFile = some (encodeIndex merged) ∧
      w'.remoteIndex = some (encodeIndex merged) := by
  unfold cloudSyncPipeline at h
  by_cases h₁ : w.hasConfig = false
  · rw [if_pos h₁] at h
    exact absurd (congrArg Prod.fst h) (by simp)
  rw [if_neg h₁] at h
  by_cases h₂ : w.hasClient = false
  · rw [if_pos h₂] at h
    exact absurd (congrArg Prod.fst h) (by simp)
  rw [if_neg h₂] at h
  rcases hL : loadLocalMasterIndex w with ⟨resL, wA⟩
  rw [hL] at h
  rcases resL with e | li
  · exact absurd (congrArg Prod.fst h) (by simp)
  dsimp only at h
  rcases hS : loadS3MasterIndex (putS3Index wA li) with ⟨resS, wB⟩
  rw [hS] at h
  rcases resS with e | s3
  · exact absurd (congrArg Prod.fst h) (by simp)
  dsimp only at h
  rcases hM : syncMasterIndex wB li s3 with ⟨resM, wC⟩
  rw [hM] at h
  rcases resM with e | merged
  · exact absurd (congrArg Prod.fst h) (by simp)
  dsimp only at h
  rcases hW1 : writeLocalIndex wC merged with ⟨resW1, wD⟩
  rw [hW1] at h
  rcases resW1 with e | u
  · exact absurd (congrArg Prod.fst h) (by simp)
  dsimp only at h
  rcases hW2 : writeLocalIndex (putS3Index wD merged) merged with ⟨resW2, wE⟩
  rw [hW2] at h
  rcases resW2 with e | u2
  · exact absurd (congrArg Prod.fst h) (by simp)
  dsimp only at h
  obtain ⟨hb, hw⟩ := Prod.mk.injEq .. ▸ h
  obtain ⟨-, -, -, -, -, -, -, -, hcase⟩ := writeLocal_inv hW2
  rcases hcase with ⟨habs, -, -⟩ | ⟨-, -, hfile⟩
  · cases habs
  refine ⟨by cases hb; rfl, li, wA, s3, wB, merged, wC, rfl, hS, hM, ?_, ?_⟩
  · rw [← hw]
    exact hfile
  · rw [← hw]
    rfl

def worldC5a : World :=
  ⟨true, true, true, some (encodeIndex [("a", ⟨1, false⟩)]),
    some (.obj []), [], [], false, []⟩

def worldC5b : World :=
  ⟨true, true, true, some (.obj []), some (.obj []), [], [], false, []⟩

/-- Claim C5 counterexample: The pipeline entry point does not return the
merged master index: it returns the boolean `true`.  Two runs whose merge
steps produce different merged indexes (visible in the persisted remote
index object afterwards) both return exactly `.ok true`. -/
theorem pipeline_returns_flag_counterexample :
    (cloudSyncPipeline worldC5a).1 = .ok true ∧
    (cloudSyncPipeline worldC5b).1 = .ok true ∧
    (loadS3MasterIndex (cloudSyncPipeline worldC5a).2).1 =
      .ok [("a", ⟨1, false⟩)] ∧
    (loadS3MasterIndex (cloudSyncPipeline worldC5b).2).1 = .ok [] :=
  ⟨rfl, rfl, rfl, rfl⟩

theorem pipeline_success_witness :
    ∃ b w' merged, cloudSyncPipeline worldC5a = (.ok b, w') ∧ b = true ∧
      w'.localIndexFile = some (encodeIndex merged) ∧
      w'.remoteIndex = some (encodeIndex merged) := by
  obtain ⟨b, w', hrun⟩ : ∃ b w',
      cloudSyncPipeline worldC5a = (.ok b, w') := ⟨_, _, rfl⟩
  obtain ⟨hb, li, wA, s3, wB, merged, wC, h1, h2, h3, h4, h5⟩ :=
    pipeline_success hrun
  exact ⟨b, w', merged, hrun, hb, h4, h5⟩

/-- Claim C6, amended: A failed pipeline run leaves the local index file
unchanged, but not necessarily the remote index object: as soon as the
local index has been loaded, the heartbeat write has already overwritten
the remote index object with the local index, and every later failure
leaves it that way. -/
theorem pipeline_failure_state {w w' : World} {e : String}
    (h : cloudSyncPipeline w = (.error e, w')) :
    w'.localIndexFile = w.localIndexFile ∧
    (w'.remoteIndex = w.remoteIndex ∨
      ∃ li wA, loadLocalMasterIndex w = (.ok li, wA) ∧
        w'.remoteIndex = some (encodeIndex li)) := by
  unfold cloudSyncPipeline at h
  by_cases h₁ : w.hasConfig = false
  · rw [if_pos h₁] at h
    obtain ⟨-, hw⟩ := Prod.mk.injEq .. ▸ h
    rw [← hw]
    exact ⟨rfl, .inl rfl⟩
  rw [if_neg h₁] at h
  by_cases h₂ : w.hasClient = false
  · rw [if_pos h₂] at h
    obtain ⟨-, hw⟩ := Prod.mk.injEq .. ▸ h
    rw [← hw]
    exact ⟨rfl, .inl rfl⟩
  rw [if_neg h₂] at h
  rcases hL : loadLocalMasterIndex w with ⟨resL, wA⟩
  rw [hL] at h
  have hA : wA = { w with trace := w.trace ++ [SyncOp.localReadIndex] } :=
    loadLocal_inv hL
  rcases resL with eL | li
  · obtain ⟨-, hw⟩ := Prod.mk.injEq .. ▸ h
    rw [← hw, hA]
    exact ⟨rfl, .inl rfl⟩
  dsimp only at h
  rcases hS : loadS3MasterIndex (putS3Index wA li) with ⟨resS, wB⟩
  rw [hS] at h
  obtain ⟨hBfile, -, -, -, -, -, hBflag, -, hBrem⟩ := loadS3_inv hS
  have hBfile' : wB.localIndexFile = w.localIndexFile := by
    rw [hBfile, hA]
    rfl
  have hBrem' : wB.remoteIndex = some (encodeIndex li) := by
    rcases hBrem with h' | ⟨h', -⟩
    · exact h'
    · cases h'
  rcases resS with eS | s3
  · obtain ⟨-, hw⟩ := Prod.mk.injEq .. ▸ h
    rw [← hw]
    exact ⟨hBfile', .inr ⟨li, wA, rfl, hBrem'⟩⟩
  dsimp only at h
  rcases hM : syncMasterIndex wB li s3 with ⟨resM, wC⟩
  rw [hM] at h
  obtain ⟨hCfile, hCrem, hCflag, -, -, -⟩ := syncMasterIndex_inv hM
  rcases resM with eM | merged
  · obtain ⟨-, hw⟩ := Prod.mk.injEq .. ▸ h
    rw [← hw]
    exact ⟨hCfile.trans hBfile', .inr ⟨li, wA, rfl, hCrem.trans hBrem'⟩⟩
  dsimp only at h
  rcases hW1 : writeLocalIndex wC merged with ⟨resW1, wD⟩
  rw [hW1] at h
  obtain ⟨hDrem, -, -, hDflag, -, -, -, -, hDcase⟩ := writeLocal_inv hW1
  rcases resW1 with eW | u
  · obtain ⟨-, hw⟩ := Prod.mk.injEq .. ▸ h
    rw [← hw]
    rcases hDcase with ⟨-, -, hDfile⟩ | ⟨habs, -, -⟩
    · exact ⟨(hDfile.trans hCfile).trans hBfile',
        .inr ⟨li, wA, rfl, hDrem.trans (hCrem.trans hBrem')⟩⟩
    · cases habs
  dsimp only at h
  rcases hDcase with ⟨habs, -, -⟩ | ⟨-, hCflagF, -⟩
  · cases habs
  rcases hW2 : writeLocalIndex (putS3Index wD merged) merged
    with ⟨resW2, wE⟩
  rw [hW2] at h
  rcases resW2 with eW2 | u2
  · obtain ⟨-, -, -, -, -, -, -, -, hEcase⟩ := writeLocal_inv hW2
    rcases hEcase with ⟨-, hflag, -⟩ | ⟨habs, -, -⟩
    · exfalso
      have htrue : wD.fsWriteFails = true := hflag
      rw [hDflag.trans hCflagF] at htrue
      cases htrue
    · cases habs
  dsimp only at h
  exact absurd (congrArg Prod.fst h) (by simp)

def worldC6 : World :=
  ⟨true, true, true, some (encodeIndex [("a", ⟨1, false⟩)]),
    some (encodeIndex [("b", ⟨2, false⟩)]), [], [], true, []⟩

/-- Claim C6 counterexample: A pipeline run that fails after the heartbeat
write does not leave the remote index as it was: starting from a remote
index holding `{"b": ...}` and a local index holding `{"a": ...}`, the run
fails at the local write step, yet the remote index object now decodes to
the local index `{"a": ...}` instead of the original `{"b": ...}`. -/
theorem pipeline_failure_overwrites_counterexample :
    ∃ e w', cloudSyncPipeline worldC6 = (.error e, w') ∧
      worldC6.remoteIndex = some (encodeIndex [("b", ⟨2, false⟩)]) ∧
      w'.remoteIndex = some (encodeIndex [("a", ⟨1, false⟩)]) ∧
      (loadS3MasterIndex w').1 = .ok [("a", ⟨1, false⟩)] ∧
      (loadS3MasterIndex worldC6).1 = .ok [("b", ⟨2, false⟩)] ∧
      ([("a", (⟨1, false⟩ : IndexRecord))] : MasterIndex) ≠
        [("b", ⟨2, false⟩)] :=
  ⟨_, _, rfl, rfl, rfl, rfl, rfl, by decide⟩

theorem pipeline_failure_state_witness :
    ∃ e w', cloudSyncPipeline worldC6 = (.error e, w') ∧
      w'.localIndexFile = worldC6.localIndexFile ∧
      (w'.remoteIndex = worldC6.remoteIndex ∨
        ∃ li wA, loadLocalMasterIndex worldC6 = (.ok li, wA) ∧
          w'.remoteIndex = some (encodeIndex li)) := by
  obtain ⟨e, w', hrun⟩ : ∃ e w',
      cloudSyncPipeline worldC6 = (.error e, w') := ⟨_, _, rfl⟩
  obtain ⟨h1, h2⟩ := pipeline_failure_state hrun
  exact ⟨e, w', hrun, h1, h2⟩

/-- Claim C7, amended: `putEntryCloudSync` rejects an entry whose
`lastModified` is JavaScript-falsy — absent or 0 — with the validation
error (so the claim's "fails only when not set" is too weak: a set value
of 0 is also rejected).  Otherwise, on a successful run it has written the
entry to `entries/{id}.json`, set the local index record for the id to
`{lastModified, deleted: false}`, merged that index against the freshly
loaded remote index, and persisted the merged index to the remote store
and the local file. -/
theorem putEntry_validates_and_persists :
    (∀ (w : World) (entry : Entry), w.hasClient = true →
      w.hasConfig = true → lastModifiedFalsy entry = true →
      putEntryCloudSync w entry =
        (.error "entry lastModified is required", w)) ∧
    (∀ (w w' : World) (entry : Entry),
      putEntryCloudSync w entry = (.ok (), w') →
      SyncOp.remotePutEntry entry.id ∈ w'.trace ∧
      alookup (putS3Entry w entry.id entry).remoteEntries entry.id =
        some entry ∧
      ∃ li wA s3 wB merged wC,
        loadLocalMasterIndex (putS3Entry w entry.id entry) = (.ok li, wA) ∧
        loadS3MasterIndex wA = (.ok s3, wB) ∧
        syncMasterIndex wB
          (aset li entry.id ⟨entry.lastModified.getD 0, false⟩) s3 =
          (.ok merged, wC) ∧
        w'.remoteIndex = some (encodeIndex merged) ∧
        w'.localIndexFile = some (encodeIndex merged)) := by
  constructor
  · intro w entry hc hf hfalsy
    unfold putEntryCloudSync
    rw [if_neg (by simp [hc]), if_neg (by simp [hf]), if_pos hfalsy]
  · intro w w' entry h
    unfold putEntryCloudSync at h
    by_cases h₁ : w.hasClient = false
    · rw [if_pos h₁] at h
      exact absurd (congrArg Prod.fst h) (by simp)
    rw [if_neg h₁] at h
    by_cases h₂ : w.hasConfig = false
    · rw [if_pos h₂] at h
      exact absurd (congrArg Prod.fst h) (by simp)
    rw [if_neg h₂] at h
    by_cases h₃ : lastModifiedFalsy entry = true
    · rw [if_pos h₃] at h
      exact absurd (congrArg Prod.fst h) (by simp)
    rw [if_neg h₃] at h
    dsimp only at h
    rcases hL : loadLocalMasterIndex (putS3Entry w entry.id entry)
      with ⟨resL, wA⟩
    rw [hL] at h
    have hA : wA = { putS3Entry w entry.id entry with
        trace := (putS3Entry w entry.id entry).trace ++
          [SyncOp.localReadIndex] } := loadLocal_inv hL
    rcases resL with eL | li
    · exact absurd (congrArg Prod.fst h) (by simp)
    dsimp only at h
    rcases hS : loadS3MasterIndex wA with ⟨resS, wB⟩
    rw [hS] at h
    rcases resS with eS | s3
    · exact absurd (congrArg Prod.fst h) (by simp)
    dsimp only at h
    rcases hM : syncMasterIndex wB
        (aset li entry.id ⟨entry.lastModified.getD 0, false⟩) s3
      with ⟨resM, wC⟩
    rw [hM] at h
    rcases resM with eM | merged
    · exact absurd (congrArg Prod.fst h) (by simp)
    dsimp only at h
    rcases hW : writeLocalIndex (putS3Index wC merged) merged
      with ⟨resW, wD⟩
    rw [hW] at h
    rcases resW with eW | u
    · exact absurd (congrArg Prod.fst h) (by simp)
    dsimp only at h
    obtain ⟨-, hw⟩ := Prod.mk.injEq .. ▸ h
    obtain ⟨hDrem, -, -, -, -, -, -, hDtr, hDcase⟩ := writeLocal_inv hW
    rcases hDcase with ⟨habs, -, -⟩ | ⟨-, -, hDfile⟩
    · cases habs
    have htrace : SyncOp.remotePutEntry entry.id ∈ wD.trace := by
      obtain ⟨tD, htD⟩ := hDtr
      obtain ⟨-, -, -, -, -, tC, htC⟩ := syncMasterIndex_inv hM
      obtain ⟨-, -, -, -, -, -, -, ⟨tB, htB⟩, -⟩ := loadS3_inv hS
      have h5 : (putS3Index wC merged).trace =
          wC.trace ++ [SyncOp.remotePutIndex] := rfl
      rw [htD, h5, htC, htB, hA]
      simp [putS3Entry]
    refine ⟨?_, alookup_aset_self _ _ _,
      li, wA, s3, wB, merged, wC, rfl, hS, hM, ?_, ?_⟩
    · rw [← hw]
      exact htrace
    · rw [← hw, hDrem]
      rfl
    · rw [← hw]
      exact hDfile

def entryC7zero : Entry := ⟨"z", "jun.01.2026", "zero stamp", 7, some 0⟩

def worldC7 : World := ⟨true, true, true, none, none, [], [], false, []⟩

/-- Claim C7 counterexample: An entry whose `lastModified` is set — to the
number 0 — is rejected by `putEntryCloudSync` all the same, because the
source's check `!entry.lastModified` is a JavaScript falsy test; the claim
"fails when not set, and otherwise writes the entry" is wrong at this
input. -/
theorem putEntry_zero_counterexample :
    entryC7zero.lastModified = some 0 ∧
    entryC7zero.lastModified ≠ none ∧
    putEntryCloudSync worldC7 entryC7zero =
      (.error "entry lastModified is required", worldC7) :=
  ⟨rfl, by simp [entryC7zero], rfl⟩

def entryC7good : Entry := ⟨"w", "jul.01.2026", "good entry", 8, some 500⟩

def worldC7w : World :=
  ⟨true, true, true, some (.obj []), some (.obj []), [],
    [("w", entryC7good)], false, []⟩

theorem putEntry_validates_and_persists_witness :
    (putEntryCloudSync worldC7 ⟨"n", "d", "c", 0, none⟩).1 =
      .error "entry lastModified is required" ∧
    ∃ w' merged,
      putEntryCloudSync worldC7w entryC7good = (.ok (), w') ∧
      w'.remoteIndex = some (encodeIndex merged) ∧
      w'.localIndexFile = some (encodeIndex merged) ∧
      SyncOp.remotePutEntry "w" ∈ w'.trace := by
  constructor
  · rw [putEntry_validates_and_persists.1 worldC7 ⟨"n", "d", "c", 0, none⟩
      rfl rfl rfl]
  · obtain ⟨w', hrun⟩ : ∃ w',
        putEntryCloudSync worldC7w entryC7good = (.ok (), w') := ⟨_, rfl⟩
    obtain ⟨htr, -, li, wA, s3, wB, merged, wC, -, -, -, hrem, hfile⟩ :=
      putEntry_validates_and_persists.2 worldC7w w' entryC7good hrun
    exact ⟨w', merged, hrun, hrem, hfile, htr⟩
